import Mathlib

/-!
Verification of the client-side data-request batching and caching layer
(`dataAPI` / `combinedGet`) of the Site Kit WordPress plugin.

The definitions below are a shallow embedding of `assets/js/googlesitekit/data`
(the Data API module): `requestWithDateRange`, `combinedGet` (one scheduling
pass plus the recursive round driver), the batch-response handler inside the
`apiFetch(...).then` continuation, `handleWPError` and `resolve`.

External collaborators that the module imports but that are not part of the
repository (the cache module, `isWPError`, `@wordpress/hooks`,
`getCurrentDateRangeSlug`) are modelled from the spec and from the documented
semantics of those libraries; each such definition carries a comment saying so.
-/

set_option linter.unusedVariables false

namespace SiteKit

/-- Results and cached values are opaque JSON payloads; modelled as `Nat`. -/
abbrev Value := Nat

/-- The `data` member of a data request. Only the `dateRange` option is
interpreted by the code under verification; all other options are kept as an
opaque `extra` blob. `dateRange = none` models an absent property. -/
structure DataObj where
  dateRange : Option String
  extra : String
deriving DecidableEq, Repr

/-- A data request as described in the JSDoc of `combinedGet`:
`{maxAge, type, identifier, datapoint, callback}` plus `data` and `priority`.
The caller-supplied callback is modelled by an identity `cbId` (so that
invocations can be recorded) together with a `cbThrows` flag telling whether
invoking it throws. -/
structure Request where
  rtype : String
  identifier : String
  datapoint : String
  data : DataObj
  maxAge : Nat
  priority : Int
  cbId : Nat
  cbThrows : Bool
deriving DecidableEq, Repr

/-- Whether `pat` is an initial segment of the character list. -/
def listStartsWith (pat : List Char) : List Char → Bool
  | [] => pat.isEmpty
  | c :: cs =>
    match pat with
    | [] => true
    | p :: ps => p == c && listStartsWith ps cs

/-- Replace the leftmost occurrence of `pat`, scanning left to right. -/
def replaceFirstChars (pat rep : List Char) : List Char → List Char
  | [] => []
  | c :: cs =>
    if listStartsWith pat (c :: cs) then rep ++ (c :: cs).drop pat.length
    else c :: replaceFirstChars pat rep cs

/-- JavaScript `String.prototype.replace(pattern, replacement)` with a
non-empty string pattern: replaces only the first (leftmost) occurrence of
`pat` in `s`; when `pat` does not occur, `s` is returned unchanged. -/
def replaceFirst (s pat rep : String) : String :=
  String.mk (replaceFirstChars pat.data rep.data s.data)

/-- `requestWithDateRange( originalRequest, dateRange )`: returns a copy of the
request, with `data.dateRange` filled.  Mirrors the source:
the `prev-date-range-placeholder` special case substitutes `last` by `prev`
in the provided default slug and returns at once; otherwise
`request.data = { dateRange, ...request.data }` keeps a caller-supplied
`dateRange` and falls back to the default. -/
def requestWithDateRange (originalRequest : Request) (dateRange : String) : Request :=
  if originalRequest.data.dateRange = some "prev-date-range-placeholder" then
    let prevDateRange := replaceFirst dateRange "last" "prev"
    { originalRequest with data := { originalRequest.data with dateRange := some prevDateRange } }
  else
    { originalRequest with
      data := { originalRequest.data with
                dateRange := match originalRequest.data.dateRange with
                             | some d => some d
                             | none => some dateRange } }

/-- Modelled from the spec: the cache module is not under `src/`; §6 describes
the key as "a string combining type, identifier, datapoint, and a canonical
serialization of the data options". -/
def getCacheKey (t identifier datapoint : String) (data : DataObj) : String :=
  t ++ "::" ++ identifier ++ "::" ++ datapoint ++ "::" ++
    (match data.dateRange with
     | some s => "dateRange=" ++ s
     | none => "") ++ ";" ++ data.extra

/-- The key the scheduler attaches to a (normalized) request:
`request.key = getCacheKey( request.type, request.identifier, request.datapoint, request.data )`. -/
def keyOf (r : Request) : String :=
  getCacheKey r.rtype r.identifier r.datapoint r.data

/-- Modelled from the spec: the Cache Store (not under `src/`) is a string-keyed
store; the value of this list is its TTL-filtered live view at the time of the
scheduling pass (expired entries are treated as absent, §3). -/
abbrev Cache := List (String × Value)

/-- Modelled from the spec: `get(key, maxAgeSeconds) -> value | absent`. The
`Cache` argument already reflects TTL filtering, so `maxAge` plays no further
role here; none of the claims exercises the TTL arithmetic. -/
def getCache (cache : Cache) (key : String) (maxAge : Nat) : Option Value :=
  (cache.find? (fun p => p.1 == key)).map Prod.snd

/-- The `keyIndexesMap` object of `combinedGet`: a plain JS object used as a
string-keyed map from a cache key to the list of indexes (into the sorted
`dataRequest` list) of the requests sharing that key. Modelled as an
association list; a key is "truthy-absent" exactly when `lookupKM` is `none`
(the stored arrays are always non-empty). -/
abbrev KeyMap := List (String × List Nat)

def lookupKM : KeyMap → String → Option (List Nat)
  | [], _ => none
  | p :: rest, key => if p.1 = key then some p.2 else lookupKM rest key

def updateKM : KeyMap → String → List Nat → KeyMap
  | [], _, _ => []
  | p :: rest, key, nv => if p.1 = key then (p.1, nv) :: rest else p :: updateKM rest key nv

/-- The deferral test of the dedup loop:
`! secondaryRequest && 10 <= request.priority && noLowPriorityRequests`
(the source variable `noLowPriorityRequests` is true exactly when some request
with priority below 10 exists). -/
def deferCond (secondaryRequest lowExists : Bool) (r : Request) : Bool :=
  !secondaryRequest && decide ((10 : Int) ≤ r.priority) && lowExists

/-- The `each( dataRequest, ... )` dedup loop of `combinedGet`: walks the
sorted request list with its index, routing each request either to
`deferredRequests`, or (first occurrence of its key) to `toRequest` while
seeding `keyIndexesMap`, or (repeated key) only into `keyIndexesMap`. -/
def buildQueuesGo (secondaryRequest lowExists : Bool) :
    List Request → Nat → List Request × List Request × KeyMap →
    List Request × List Request × KeyMap
  | [], _, acc => acc
  | r :: rest, i, (toReq, defRs, km) =>
    if deferCond secondaryRequest lowExists r then
      buildQueuesGo secondaryRequest lowExists rest (i + 1) (toReq, defRs ++ [r], km)
    else
      match lookupKM km (keyOf r) with
      | none =>
        buildQueuesGo secondaryRequest lowExists rest (i + 1)
          (toReq ++ [r], defRs, km ++ [(keyOf r, [i])])
      | some ixs =>
        buildQueuesGo secondaryRequest lowExists rest (i + 1)
          (toReq, defRs, updateKM km (keyOf r) (ixs ++ [i]))

/-- `dataAPI.maxRequests` starts at 10. -/
def initialMaxRequests : Nat := 10

/-- `maxDatapointsPerRequest` inside `combinedGet`. -/
def maxDatapointsPerRequest : Nat := 10

/-- Everything one synchronous pass of `combinedGet` computes and does, up to
(and including) deciding whether to schedule the recursive secondary pass and
whether to issue the network call. Timer payloads (the staggered cache
resolutions) and the network call body are recorded as data. -/
structure PassResult where
  /-- cache hits, resolved on the staggered 25ms timers, in timer order -/
  cacheHits : List (Request × Value)
  /-- the sorted cache-miss list (the source's `dataRequest` after `sortBy`) -/
  dataRequest : List Request
  /-- the source's `deferredRequests` -/
  deferred : List Request
  /-- the source's `toRequest` -/
  toRequest : List Request
  /-- the source's `keyIndexesMap` -/
  keyIndexesMap : KeyMap
  /-- the source's `currentRequest`: the chunk handed to `apiFetch` -/
  chunk : List Request
  /-- the source's `remainingDatapoints` after concatenating `deferredRequests` -/
  remaining : List Request
  /-- whether `apiFetch` is reached (false exactly on the all-from-cache early return) -/
  networkCall : Bool
  /-- whether a recursive `combinedGet( remaining, true )` was scheduled -/
  scheduledRecursion : Bool
  /-- delay of the scheduled recursion, when scheduled -/
  recursionDelayMs : Option Nat
  /-- `dataAPI.maxRequests` after the pass -/
  counter : Nat
  /-- `doAction( 'googlesitekit.dataLoaded', _ )` events fired synchronously in the pass -/
  actions : List String
deriving DecidableEq, Repr

/-- The tail of a `combinedGet` pass, once `dataRequest` has been sorted and
the dedup/defer loop has produced `toRequest`, `deferredRequests` and
`keyIndexesMap`: slice the first chunk of at most 10, early return with the
`cache` action when nothing is left, otherwise handle the retry counter
(`0 < remainingDatapoints.length && 0 < this.maxRequests--`, else reset to 10),
schedule the 50ms recursion, and issue the network call. -/
def passCore (cacheHits : List (Request × Value)) (dataRequest deferred toRequest : List Request)
    (keyIndexesMap : KeyMap) (counter : Nat) : PassResult :=
  let currentRequest := toRequest.take maxDatapointsPerRequest
  let remainingDatapoints := toRequest.drop maxDatapointsPerRequest ++ deferred
  if currentRequest.isEmpty && remainingDatapoints.isEmpty then
    { cacheHits := cacheHits, dataRequest := dataRequest, deferred := deferred,
      toRequest := toRequest, keyIndexesMap := keyIndexesMap,
      chunk := currentRequest, remaining := remainingDatapoints,
      networkCall := false, scheduledRecursion := false, recursionDelayMs := none,
      counter := counter, actions := ["cache"] }
  else
    let sched := !remainingDatapoints.isEmpty && decide (0 < counter)
    { cacheHits := cacheHits, dataRequest := dataRequest, deferred := deferred,
      toRequest := toRequest, keyIndexesMap := keyIndexesMap,
      chunk := currentRequest, remaining := remainingDatapoints,
      networkCall := true, scheduledRecursion := sched,
      recursionDelayMs := if sched then some 50 else none,
      counter := if sched then counter - 1 else initialMaxRequests,
      actions := [] }

/-- One synchronous pass of `combinedGet( combinedRequest, secondaryRequest )`
with `dataAPI.maxRequests = counter` on entry and
`getCurrentDateRangeSlug() = slug`.  Follows the source: normalize and key
each request, split cache hits (resolved on staggered timers) from misses,
sort misses by priority, run the dedup/defer loop, then `passCore`. -/
def combinedGetPass (cache : Cache) (combinedRequest : List Request)
    (secondaryRequest : Bool) (counter : Nat) (slug : String) : PassResult :=
  let normalized := combinedRequest.map (fun r => requestWithDateRange r slug)
  let cacheHits := normalized.filterMap
    (fun r => (getCache cache (keyOf r) r.maxAge).map (fun v => (r, v)))
  let misses := normalized.filter (fun r => (getCache cache (keyOf r) r.maxAge).isNone)
  let dataRequest := List.insertionSort (fun a b => a.priority ≤ b.priority) misses
  let lowExists := dataRequest.any (fun r => decide (r.priority < 10))
  let q := buildQueuesGo secondaryRequest lowExists dataRequest 0 ([], [], [])
  passCore cacheHits dataRequest q.2.1 q.1 q.2.2 counter

theorem passCore_sched_counter (cacheHits : List (Request × Value))
    (dataRequest deferred toRequest : List Request) (km : KeyMap) (counter : Nat)
    (h : (passCore cacheHits dataRequest deferred toRequest km counter).scheduledRecursion = true) :
    (passCore cacheHits dataRequest deferred toRequest km counter).counter < counter := by
  unfold passCore at h ⊢
  by_cases hc : (toRequest.take maxDatapointsPerRequest).isEmpty
      && (toRequest.drop maxDatapointsPerRequest ++ deferred).isEmpty
  · simp only [hc, if_pos] at h
    simp at h
  · simp only [hc] at h ⊢
    simp only [Bool.false_eq_true, if_false] at h ⊢
    simp only [h, if_pos]
    simp only [Bool.and_eq_true, decide_eq_true_eq] at h
    omega

theorem combinedGetPass_sched_counter (cache : Cache) (reqs : List Request)
    (secondary : Bool) (counter : Nat) (slug : String)
    (h : (combinedGetPass cache reqs secondary counter slug).scheduledRecursion = true) :
    (combinedGetPass cache reqs secondary counter slug).counter < counter := by
  unfold combinedGetPass at h ⊢
  exact passCore_sched_counter _ _ _ _ _ _ h

/-- The recursive driver: the sequence of network-call bodies (`currentRequest`
chunks) issued by `combinedGet` and the secondary passes it schedules, under
the timing of the source (each secondary pass runs 50ms later, before any
response has been written to the cache, so the cache view stays fixed).
Recursion happens exactly when the pass scheduled it; the counter threading is
the source's `maxRequests` handling. -/
def combinedGetRounds (cache : Cache) (slug : String) :
    List Request → Bool → Nat → List (List Request)
  | reqs, secondary, counter =>
    let p := combinedGetPass cache reqs secondary counter slug
    if p.networkCall then
      if h : p.scheduledRecursion = true ∧ p.counter < counter then
        p.chunk :: combinedGetRounds cache slug p.remaining true p.counter
      else
        [p.chunk]
    else
      []
termination_by reqs secondary counter => counter
decreasing_by exact h.2

/-- Unfolding equation for `combinedGetRounds` with the termination guard
discharged: the guard's second conjunct is implied by the first. -/
theorem combinedGetRounds_eq (cache : Cache) (slug : String) (reqs : List Request)
    (secondary : Bool) (counter : Nat) :
    combinedGetRounds cache slug reqs secondary counter =
      (let p := combinedGetPass cache reqs secondary counter slug
       if p.networkCall then
         if p.scheduledRecursion then
           p.chunk :: combinedGetRounds cache slug p.remaining true p.counter
         else
           [p.chunk]
       else
         []) := by
  rw [combinedGetRounds]
  simp only []
  by_cases hs : (combinedGetPass cache reqs secondary counter slug).scheduledRecursion = true
  · have hlt := combinedGetPass_sched_counter cache reqs secondary counter slug hs
    simp [hs, hlt]
  · simp [hs]

/-! ### Batch-response processing, `handleWPError` and `resolve` -/

/-- The `data` member of a WP error payload. `reason`/`reconnectURL` are
`none` when the property is absent (or falsy, the only case the code
distinguishes). -/
structure ErrData where
  status : Int
  reason : Option String
  reconnectURL : Option String
deriving DecidableEq, Repr

/-- A WP error payload `{ code, message, data }`. -/
structure WPError where
  code : String
  message : String
  data : Option ErrData
deriving DecidableEq, Repr

/-- A per-key entry of the batch response: either a success payload or a WP
error payload. Modelled from the spec (§6): the response maps each cache key
to a success payload or an error payload; `isWPError` (imported from
`util/errors`, not under `src/`) recognises the error shape. -/
inductive WireResult where
  | ok (v : Value)
  | err (e : WPError)
deriving DecidableEq, Repr

/-- Modelled from the spec: `isWPError( result )` recognises the error-payload
shape `{ code, message, data }`. -/
def isWPError : WireResult → Bool
  | .ok _ => false
  | .err _ => true

/-- The three notification components `handleWPError` can register. -/
inductive NotifComponent where
  | dashboardAuthScopesAlert
  | dashboardPermissionAlert
  | authError
deriving DecidableEq, Repr

/-- What a registered filter handler is: a notification component filled in by
`fillFilterWithComponent`, or the self-removing total-count increment
callback. -/
inductive FilterPayload where
  | notif (c : NotifComponent)
  | counterInc (n : Nat)
deriving DecidableEq, Repr

/-- One `addFilter( hook, namespace, handler, priority )` registration.
Modelled from the `@wordpress/hooks` semantics (external dependency):
`addFilter` appends a handler to the hook's list; the namespace does not
deduplicate, it only addresses later `removeFilter` calls. -/
structure FilterReg where
  hook : String
  ns : String
  payload : FilterPayload
deriving DecidableEq, Repr

/-- The filter registrations performed by one `handleWPError` call, in source
order: guard on `data` and `(!data.reason && !data.reconnectURL)`; then the
insufficient-scopes alert, the permission alert, the reconnect alert, and
finally (when any notice was added) the self-removing
`googlesitekit.TotalNotifications` count filter carrying `addedNoticeCount`. -/
def handleWPErrorFilters (e : WPError) : List FilterReg :=
  match e.data with
  | none => []
  | some d =>
    if d.reason = none ∧ d.reconnectURL = none then []
    else
      let l1 := if d.reason = some "authError" ∨ d.reason = some "insufficientPermissions" then
          [⟨"googlesitekit.ErrorNotification", "googlesitekit.AuthNotification",
            .notif .dashboardAuthScopesAlert⟩]
        else []
      let l2 := if d.reason = some "forbidden" then
          [⟨"googlesitekit.ErrorNotification", "googlesitekit.AuthNotification",
            .notif .dashboardPermissionAlert⟩]
        else []
      let l3 := if d.reconnectURL ≠ none then
          [⟨"googlesitekit.ErrorNotification", "googlesitekit.AuthNotification",
            .notif .authError⟩]
        else []
      let addedNoticeCount := l1.length + l2.length + l3.length
      l1 ++ l2 ++ l3 ++
        (if 0 < addedNoticeCount then
          [⟨"googlesitekit.TotalNotifications", "googlesitekit.AuthCountIncrease",
            .counterInc addedNoticeCount⟩]
        else [])

/-- Modelled from the `@wordpress/hooks` semantics: applying the
`googlesitekit.TotalNotifications` filters to a count runs the registered
handlers in order; the count handler first removes every handler registered
under `googlesitekit.AuthCountIncrease` (itself included — the source comment
says "Only run once.") and then adds its `addedNoticeCount`. -/
def runCounterFilters : List FilterReg → Nat → Nat
  | [], count => count
  | f :: rest, count =>
    if f.hook = "googlesitekit.TotalNotifications" then
      match f.payload with
      | .counterInc n =>
        runCounterFilters
          (rest.filter (fun g => !(g.hook = "googlesitekit.TotalNotifications"
            && g.ns = "googlesitekit.AuthCountIncrease" && g.ns = f.ns))) (count + n)
      | .notif _ => runCounterFilters rest count
    else runCounterFilters rest count
termination_by l count => l.length
decreasing_by
  all_goals simp only [List.length_cons]
  · exact Nat.lt_succ_of_le (List.length_filter_le _ _)
  · exact Nat.lt_succ_self _
  · exact Nat.lt_succ_self _

/-- JavaScript bracket indexing of an array by an *array* subscript, as in the
source's `dataRequest[ keyIndexesMap[ key ] ]`: the subscript is coerced to a
string, so a one-element array indexes like its single number while any other
array yields `undefined` (here `none`). -/
def jsIndexByList (l : List Request) (ixs : List Nat) : Option Request :=
  match ixs with
  | [i] => l.get? i
  | _ => none

/-- The context the `apiFetch(...).then` continuation closes over. -/
structure ProcCtx where
  dataRequest : List Request
  keyIndexesMap : KeyMap
  /-- whether `remainingDatapoints` is empty (`0 === remainingDatapoints.length`) -/
  remainingEmpty : Bool
deriving DecidableEq, Repr

/-- The observable effects accumulated while the response handler runs. -/
structure ProcState where
  /-- `setCache( request.key, result )` calls, in order -/
  cacheWrites : List (String × WireResult)
  /-- `handleWPError` invocations: the destructured `(datapoint, type, identifier)` plus the error result -/
  classified : List (String × String × String × WireResult)
  /-- `addFilter` registrations performed by `handleWPError` -/
  filters : List FilterReg
  /-- callback invocations performed by `resolve`: `(callback identity, result)` -/
  resolved : List (Nat × WireResult)
  /-- `doAction( 'googlesitekit.dataLoaded', _ )` events -/
  actions : List String
  /-- `console.error` logs for unknown response keys -/
  logs : List String
deriving DecidableEq, Repr

def emptyProc : ProcState :=
  { cacheWrites := [], classified := [], filters := [], resolved := [], actions := [], logs := [] }

def appendProc (s t : ProcState) : ProcState :=
  { cacheWrites := s.cacheWrites ++ t.cacheWrites,
    classified := s.classified ++ t.classified,
    filters := s.filters ++ t.filters,
    resolved := s.resolved ++ t.resolved,
    actions := s.actions ++ t.actions,
    logs := s.logs ++ t.logs }

/-- `setCache( request.key, result )`, performed only for non-error results
(`if ( ! isError ) { setCache( request.key, result ); }`). -/
def cacheStep (s : ProcState) (isErr : Bool) (req : Request) (r : WireResult) : ProcState :=
  if isErr then s else { s with cacheWrites := s.cacheWrites ++ [(keyOf req, r)] }

/-- `this.resolve( request, result )`: the callback invocation is recorded. -/
def pushResolved (s : ProcState) (req : Request) (r : WireResult) : ProcState :=
  { s with resolved := s.resolved ++ [(req.cbId, r)] }

/-- The inner `each( keyIndexesMap[ key ], ... )` loop: look the request up by
index, write the cache unless the result is an error (`setCache` on an
`undefined` request throws), and `resolve` it — `resolve` checks the request
and its callback before invoking, and a callback that throws propagates out
of the loop. `.error` means a thrown exception carrying the effects already
performed. -/
def resolveLoop (ctx : ProcCtx) (s : ProcState) (r : WireResult) (isErr : Bool) :
    List Nat → Except ProcState ProcState
  | [] => .ok s
  | i :: rest =>
    match ctx.dataRequest.get? i with
    | none =>
      if isErr then resolveLoop ctx s r isErr rest
      else .error s
    | some req =>
      if req.cbThrows then .error (pushResolved (cacheStep s isErr req r) req r)
      else resolveLoop ctx (pushResolved (cacheStep s isErr req r) req r) r isErr rest

/-- The `isError` branch of the response handler (lines destructuring
`dataRequest[ keyIndexesMap[ key ] ]` and calling `handleWPError`): throws
when the array subscript does not name a single request, otherwise records
the classification and the filter registrations. -/
def classifyStep (ctx : ProcCtx) (s : ProcState) (r : WireResult) (ixs : List Nat) :
    Except ProcState ProcState :=
  if isWPError r then
    match jsIndexByList ctx.dataRequest ixs with
    | none => Except.error s
    | some req =>
      Except.ok { s with
        classified := s.classified ++ [(req.datapoint, req.rtype, req.identifier, r)],
        filters := s.filters ++ (match r with
          | .err e => handleWPErrorFilters e
          | .ok _ => []) }
  else
    Except.ok s

/-- Processing of one `(key, result)` pair of the batch response, following
the body of the outer `each( results, ... )`: unknown keys are logged and
skipped; an error result runs `classifyStep`; then every recorded index is
cached/resolved by the inner `each`; finally the `api` data-loaded action
fires when `remainingDatapoints` is empty. A thrown exception propagates. -/
def processKey (ctx : ProcCtx) (s : ProcState) (k : String) (r : WireResult) :
    Except ProcState ProcState :=
  match lookupKM ctx.keyIndexesMap k with
  | none => .ok { s with logs := s.logs ++ ["data_error unknown response key " ++ k] }
  | some ixs =>
    match classifyStep ctx s r ixs with
    | .error e => .error e
    | .ok s1 =>
      match resolveLoop ctx s1 r (isWPError r) ixs with
      | .error e => .error e
      | .ok s2 =>
        .ok (if ctx.remainingEmpty then { s2 with actions := s2.actions ++ ["api"] } else s2)

/-- The outer `each( results, ... )` of the `.then` continuation: a thrown
exception aborts the remaining keys. -/
def processResultsAux (ctx : ProcCtx) : List (String × WireResult) → ProcState →
    Except ProcState ProcState
  | [], s => .ok s
  | (k, r) :: rest, s =>
    match processKey ctx s k r with
    | .ok s' => processResultsAux ctx rest s'
    | .error s' => .error s'

/-- The whole `.then` continuation together with the `.catch` handler: a
rejection is only logged (`console.warn`), so the effects performed before
the throw stand. The Boolean records whether the handler aborted. -/
def processResults (ctx : ProcCtx) (results : List (String × WireResult)) :
    ProcState × Bool :=
  match processResultsAux ctx results emptyProc with
  | .ok s => (s, false)
  | .error s => (s, true)

/-! ### Characterization of the dedup/defer loop -/

theorem lookupKM_eq_none_iff (km : KeyMap) (k : String) :
    lookupKM km k = none ↔ k ∉ km.map Prod.fst := by
  induction km with
  | nil => simp [lookupKM]
  | cons p rest ih =>
    by_cases h : p.1 = k
    · simp [lookupKM, h]
    · have h' : ¬k = p.1 := fun hh => h hh.symm
      simp only [lookupKM, if_neg h, List.map_cons, List.mem_cons, ih]
      tauto

theorem lookupKM_append_self (km : KeyMap) (k : String) (v : List Nat)
    (h : lookupKM km k = none) : lookupKM (km ++ [(k, v)]) k = some v := by
  induction km with
  | nil => simp [lookupKM]
  | cons p rest ih =>
    simp only [lookupKM] at h
    by_cases hp : p.1 = k
    · rw [if_pos hp] at h
      cases h
    · rw [if_neg hp] at h
      simp only [List.cons_append, lookupKM, if_neg hp]
      exact ih h

theorem lookupKM_append_ne (km : KeyMap) (k k' : String) (v : List Nat)
    (h : k' ≠ k) : lookupKM (km ++ [(k, v)]) k' = lookupKM km k' := by
  induction km with
  | nil => simp [lookupKM, Ne.symm h]
  | cons p rest ih =>
    simp only [List.cons_append, lookupKM]
    by_cases hp : p.1 = k'
    · simp [hp]
    · simp [hp, ih]

theorem lookupKM_updateKM_self (km : KeyMap) (k : String) (xs nv : List Nat)
    (h : lookupKM km k = some xs) : lookupKM (updateKM km k nv) k = some nv := by
  induction km with
  | nil => simp [lookupKM] at h
  | cons p rest ih =>
    by_cases hp : p.1 = k
    · simp [updateKM, lookupKM, hp]
    · simp only [lookupKM, if_neg hp] at h
      simp only [updateKM, if_neg hp, lookupKM, if_neg hp]
      exact ih h

theorem lookupKM_updateKM_ne (km : KeyMap) (k k' : String) (nv : List Nat)
    (h : k' ≠ k) : lookupKM (updateKM km k nv) k' = lookupKM km k' := by
  induction km with
  | nil => simp [updateKM]
  | cons p rest ih =>
    by_cases hp : p.1 = k
    · have hne : ¬p.1 = k' := by
        rw [hp]
        exact Ne.symm h
      simp [updateKM, lookupKM, hp, hne, Ne.symm h]
    · by_cases hp' : p.1 = k'
      · simp [updateKM, lookupKM, hp, hp', h]
      · simp [updateKM, lookupKM, hp, hp', ih]

theorem updateKM_map_fst (km : KeyMap) (k : String) (nv : List Nat) :
    (updateKM km k nv).map Prod.fst = km.map Prod.fst := by
  induction km with
  | nil => simp [updateKM]
  | cons p rest ih =>
    by_cases hp : p.1 = k
    · simp [updateKM, hp]
    · simp [updateKM, hp, ih]

/-- The `deferredRequests` list collects exactly the requests of the input, in
order, that satisfy the defer test. -/
theorem buildQueuesGo_deferred (s le : Bool) (l : List Request) (i : Nat)
    (t d : List Request) (km : KeyMap) :
    (buildQueuesGo s le l i (t, d, km)).2.1 = d ++ l.filter (deferCond s le) := by
  induction l generalizing i t d km with
  | nil => simp [buildQueuesGo]
  | cons r rest ih =>
    by_cases hd : deferCond s le r = true
    · simp [buildQueuesGo, hd, ih]
    · simp only [Bool.not_eq_true] at hd
      cases hk : lookupKM km (keyOf r) with
      | none => simp [buildQueuesGo, hd, hk, ih]
      | some ixs => simp [buildQueuesGo, hd, hk, ih]

/-- Reference form of the resulting `toRequest` list: keep the first
non-deferred occurrence of each key, skipping keys already `seen`. -/
def toReqSpec (s le : Bool) (seen : List String) : List Request → List Request
  | [] => []
  | r :: rest =>
    if deferCond s le r then toReqSpec s le seen rest
    else if keyOf r ∈ seen then toReqSpec s le seen rest
    else r :: toReqSpec s le (keyOf r :: seen) rest

theorem toReqSpec_congr (s le : Bool) (seen seen' : List String) (l : List Request)
    (h : ∀ x, x ∈ seen ↔ x ∈ seen') : toReqSpec s le seen l = toReqSpec s le seen' l := by
  induction l generalizing seen seen' with
  | nil => rfl
  | cons r rest ih =>
    by_cases hd : deferCond s le r = true
    · simp [toReqSpec, hd, ih seen seen' h]
    · simp only [Bool.not_eq_true] at hd
      by_cases hs : keyOf r ∈ seen
      · simp [toReqSpec, hd, hs, (h _).mp hs, ih seen seen' h]
      · have hs' : keyOf r ∉ seen' := fun hc => hs ((h _).mpr hc)
        simp only [toReqSpec, hd, Bool.false_eq_true, if_false, hs, hs', if_neg]
        refine congrArg (r :: ·) (ih _ _ ?_)
        intro x
        simp [h x]

/-- The `toRequest` accumulator of the dedup loop equals its reference form. -/
theorem buildQueuesGo_toReq (s le : Bool) (l : List Request) (i : Nat)
    (t d : List Request) (km : KeyMap) :
    (buildQueuesGo s le l i (t, d, km)).1 = t ++ toReqSpec s le (km.map Prod.fst) l := by
  induction l generalizing i t d km with
  | nil => simp [buildQueuesGo, toReqSpec]
  | cons r rest ih =>
    by_cases hd : deferCond s le r = true
    · simp [buildQueuesGo, toReqSpec, hd, ih]
    · simp only [Bool.not_eq_true] at hd
      cases hk : lookupKM km (keyOf r) with
      | none =>
        have hseen : keyOf r ∉ km.map Prod.fst := (lookupKM_eq_none_iff km _).mp hk
        simp only [buildQueuesGo, hd, Bool.false_eq_true, if_false, hk]
        rw [ih]
        simp only [toReqSpec, hd, Bool.false_eq_true, if_false, hseen, if_neg]
        simp only [List.append_assoc, List.singleton_append]
        refine congrArg _ (congrArg _ ?_)
        refine toReqSpec_congr _ _ _ _ _ ?_
        intro x
        simp [or_comm]
      | some ixs =>
        have hseen : keyOf r ∈ km.map Prod.fst := by
          by_contra hc
          rw [← lookupKM_eq_none_iff] at hc
          rw [hc] at hk
          cases hk
        simp only [buildQueuesGo, hd, Bool.false_eq_true, if_false, hk]
        rw [ih]
        simp [toReqSpec, hd, hseen, updateKM_map_fst]

/-- Reference form of a `keyIndexesMap` entry: the indexes (counting from
`i`) of the non-deferred requests of the list whose key is `k`. -/
def kmIdxSpec (s le : Bool) : List Request → Nat → String → List Nat
  | [], _, _ => []
  | r :: rest, i, k =>
    if !deferCond s le r && (keyOf r == k) then i :: kmIdxSpec s le rest (i + 1) k
    else kmIdxSpec s le rest (i + 1) k

theorem buildQueuesGo_km_some (s le : Bool) (l : List Request) (i : Nat)
    (t d : List Request) (km : KeyMap) (k : String) (xs : List Nat)
    (h : lookupKM km k = some xs) :
    lookupKM (buildQueuesGo s le l i (t, d, km)).2.2 k = some (xs ++ kmIdxSpec s le l i k) := by
  induction l generalizing i t d km xs with
  | nil => simp [buildQueuesGo, kmIdxSpec, h]
  | cons r rest ih =>
    by_cases hd : deferCond s le r = true
    · simp [buildQueuesGo, kmIdxSpec, hd, ih _ _ _ _ _ h]
    · simp only [Bool.not_eq_true] at hd
      by_cases hkey : keyOf r = k
      · subst hkey
        simp only [buildQueuesGo, hd, Bool.false_eq_true, if_false, h]
        rw [ih _ _ _ _ (xs ++ [i]) (lookupKM_updateKM_self km _ xs _ h)]
        simp [kmIdxSpec, hd]
      · cases hk2 : lookupKM km (keyOf r) with
        | none =>
          simp only [buildQueuesGo, hd, Bool.false_eq_true, if_false, hk2]
          have h2 : lookupKM (km ++ [(keyOf r, [i])]) k = some xs := by
            rw [lookupKM_append_ne km _ _ _ (fun hc => hkey hc.symm)]
            exact h
          rw [ih _ _ _ _ _ h2]
          simp [kmIdxSpec, hd, hkey]
        | some ixs =>
          simp only [buildQueuesGo, hd, Bool.false_eq_true, if_false, hk2]
          have h2 : lookupKM (updateKM km (keyOf r) (ixs ++ [i])) k = some xs := by
            rw [lookupKM_updateKM_ne km _ _ _ (fun hc => hkey hc.symm)]
            exact h
          rw [ih _ _ _ _ _ h2]
          simp [kmIdxSpec, hd, hkey]

theorem buildQueuesGo_km_none (s le : Bool) (l : List Request) (i : Nat)
    (t d : List Request) (km : KeyMap) (k : String)
    (h : lookupKM km k = none) :
    lookupKM (buildQueuesGo s le l i (t, d, km)).2.2 k =
      (if kmIdxSpec s le l i k = [] then none else some (kmIdxSpec s le l i k)) := by
  induction l generalizing i t d km with
  | nil => simp [buildQueuesGo, kmIdxSpec, h]
  | cons r rest ih =>
    by_cases hd : deferCond s le r = true
    · simp [buildQueuesGo, kmIdxSpec, hd, ih _ _ _ _ h]
    · simp only [Bool.not_eq_true] at hd
      by_cases hkey : keyOf r = k
      · subst hkey
        simp only [buildQueuesGo, hd, Bool.false_eq_true, if_false, h]
        rw [buildQueuesGo_km_some s le rest (i + 1) _ _ _ _ [i]
          (lookupKM_append_self km _ _ h)]
        simp [kmIdxSpec, hd]
      · cases hk2 : lookupKM km (keyOf r) with
        | none =>
          simp only [buildQueuesGo, hd, Bool.false_eq_true, if_false, hk2]
          have h2 : lookupKM (km ++ [(keyOf r, [i])]) k = none := by
            rw [lookupKM_append_ne km _ _ _ (fun hc => hkey hc.symm)]
            exact h
          rw [ih _ _ _ _ h2]
          simp [kmIdxSpec, hd, hkey]
        | some ixs =>
          simp only [buildQueuesGo, hd, Bool.false_eq_true, if_false, hk2]
          have h2 : lookupKM (updateKM km (keyOf r) (ixs ++ [i])) k = none := by
            rw [lookupKM_updateKM_ne km _ _ _ (fun hc => hkey hc.symm)]
            exact h
          rw [ih _ _ _ _ h2]
          simp [kmIdxSpec, hd, hkey]

/-- Every request kept in `toRequest` passed the defer test negatively. -/
theorem toReqSpec_not_deferred (s le : Bool) (seen : List String) (l : List Request) :
    ∀ x ∈ toReqSpec s le seen l, deferCond s le x = false := by
  induction l generalizing seen with
  | nil => simp [toReqSpec]
  | cons r rest ih =>
    by_cases hd : deferCond s le r = true
    · simpa [toReqSpec, hd] using ih seen
    · simp only [Bool.not_eq_true] at hd
      by_cases hs : keyOf r ∈ seen
      · simpa [toReqSpec, hd, hs] using ih seen
      · intro x hx
        simp only [toReqSpec, hd, Bool.false_eq_true, if_false, hs, if_neg,
          List.mem_cons] at hx
        rcases hx with rfl | hx
        · exact hd
        · exact ih _ x hx

/-- `toRequest` holds pairwise distinct keys, none of them previously seen. -/
theorem toReqSpec_keys (s le : Bool) (seen : List String) (l : List Request) :
    (toReqSpec s le seen l).Pairwise (fun a b => keyOf a ≠ keyOf b) ∧
      ∀ x ∈ toReqSpec s le seen l, keyOf x ∉ seen := by
  induction l generalizing seen with
  | nil => simp [toReqSpec]
  | cons r rest ih =>
    by_cases hd : deferCond s le r = true
    · simpa [toReqSpec, hd] using ih seen
    · simp only [Bool.not_eq_true] at hd
      by_cases hs : keyOf r ∈ seen
      · simpa [toReqSpec, hd, hs] using ih seen
      · simp only [toReqSpec, hd, Bool.false_eq_true, if_false, hs, if_neg]
        obtain ⟨ihp, ihs⟩ := ih (keyOf r :: seen)
        refine ⟨List.pairwise_cons.mpr ⟨?_, ihp⟩, ?_⟩
        · intro b hb
          have := ihs b hb
          simp only [List.mem_cons] at this
          intro hc
          exact this (Or.inl hc.symm)
        · intro x hx
          simp only [List.mem_cons] at hx
          rcases hx with rfl | hx
          · exact hs
          · have := ihs x hx
            simp only [List.mem_cons] at this
            exact fun hc => this (Or.inr hc)

/-- With no deferral and pairwise-distinct unseen keys, the dedup loop keeps
the whole list. -/
theorem toReqSpec_eq_self (s le : Bool) (seen : List String) (l : List Request)
    (hdef : ∀ r ∈ l, deferCond s le r = false)
    (hkeys : (l.map keyOf).Pairwise (· ≠ ·))
    (hseen : ∀ r ∈ l, keyOf r ∉ seen) :
    toReqSpec s le seen l = l := by
  induction l generalizing seen with
  | nil => rfl
  | cons r rest ih =>
    have hd := hdef r (by simp)
    have hs := hseen r (by simp)
    simp only [toReqSpec, hd, Bool.false_eq_true, if_false, hs, if_neg]
    simp only [List.map_cons, List.pairwise_cons] at hkeys
    refine congrArg _ (ih _ ?_ hkeys.2 ?_)
    · intro x hx
      exact hdef x (by simp [hx])
    · intro x hx
      simp only [List.mem_cons, not_or]
      constructor
      · intro hc
        exact hkeys.1 (keyOf x) (List.mem_map_of_mem _ hx) hc.symm
      · exact hseen x (by simp [hx])

/-! ### Reference-level model of the normalizer (for the frame property) -/

abbrev Ref := Nat

/-- A request object on the JS heap: scalar fields, a reference to its `data`
object (`none` when the caller's object had no `data` property), and the
`key` property the scheduler attaches later. -/
structure ReqObj where
  rtype : String
  identifier : String
  datapoint : String
  dataRef : Option Ref
  key : Option String
  maxAge : Nat
  priority : Int
deriving DecidableEq, Repr

/-- A JS heap holding request objects and `data` objects. -/
structure Heap where
  reqs : List (Ref × ReqObj)
  datas : List (Ref × DataObj)
  next : Ref
deriving DecidableEq, Repr

def lookupReq (h : Heap) (a : Ref) : Option ReqObj :=
  (h.reqs.find? (fun p => p.1 == a)).map Prod.snd

def lookupData (h : Heap) (a : Ref) : Option DataObj :=
  (h.datas.find? (fun p => p.1 == a)).map Prod.snd

def allocReq (h : Heap) (o : ReqObj) : Heap × Ref :=
  ({ h with reqs := (h.next, o) :: h.reqs, next := h.next + 1 }, h.next)

def allocData (h : Heap) (o : DataObj) : Heap × Ref :=
  ({ h with datas := (h.next, o) :: h.datas, next := h.next + 1 }, h.next)

def writeReq (h : Heap) (a : Ref) (o : ReqObj) : Heap :=
  { h with reqs := h.reqs.map (fun p => if p.1 = a then (p.1, o) else p) }

/-- All references stored in the heap were allocated before `next`. -/
def heapWF (h : Heap) : Prop :=
  (∀ p ∈ h.reqs, p.1 < h.next) ∧ (∀ p ∈ h.datas, p.1 < h.next)

/-- `requestWithDateRange` at the reference level.
`const request = ... originalRequest` spreads `data:` (a fresh empty object
that survives only when the original has no `data` property) and the original
fields into a freshly allocated request object; each branch then assigns a
freshly allocated data object to `request.data` and returns the new request
reference. The original request object and its data object are only read. -/
def requestWithDateRangeRef (h : Heap) (orig : Ref) (dateRange : String) : Heap × Option Ref :=
  match lookupReq h orig with
  | none => (h, none)
  | some o =>
    let h1d0 := allocData h { dateRange := none, extra := "" }
    let dref := o.dataRef.getD h1d0.2
    let obj0 : ReqObj := { o with dataRef := some dref }
    let h2rq := allocReq h1d0.1 obj0
    let df := (lookupData h2rq.1 dref).getD { dateRange := none, extra := "" }
    if df.dateRange = some "prev-date-range-placeholder" then
      let prevDateRange := replaceFirst dateRange "last" "prev"
      let h3d1 := allocData h2rq.1 { df with dateRange := some prevDateRange }
      (writeReq h3d1.1 h2rq.2 { obj0 with dataRef := some h3d1.2 }, some h2rq.2)
    else
      let h3d2 := allocData h2rq.1
        { df with dateRange := match df.dateRange with
                               | some d => some d
                               | none => some dateRange }
      (writeReq h3d2.1 h2rq.2 { obj0 with dataRef := some h3d2.2 }, some h2rq.2)

/-- The key-attachment line of `combinedGet`, at the reference level:
`request.key = getCacheKey( request.type, request.identifier, request.datapoint, request.data )`. -/
def attachKeyRef (h : Heap) (rq : Ref) : Heap :=
  match lookupReq h rq with
  | none => h
  | some o =>
    let df := match o.dataRef with
              | some dref => (lookupData h dref).getD { dateRange := none, extra := "" }
              | none => { dateRange := none, extra := "" }
    writeReq h rq { o with key := some (getCacheKey o.rtype o.identifier o.datapoint df) }

theorem find?_cons_false {α : Type} (p : α → Bool) (x : α) (l : List α) (h : p x = false) :
    List.find? p (x :: l) = List.find? p l := by
  simp [List.find?, h]

theorem find?_cons_true {α : Type} (p : α → Bool) (x : α) (l : List α) (h : p x = true) :
    List.find? p (x :: l) = some x := by
  simp [List.find?, h]

theorem lookupReq_allocData (h : Heap) (o : DataObj) (a : Ref) :
    lookupReq (allocData h o).1 a = lookupReq h a := rfl

theorem lookupData_allocReq (h : Heap) (o : ReqObj) (a : Ref) :
    lookupData (allocReq h o).1 a = lookupData h a := rfl

theorem lookupData_allocData_lt (h : Heap) (o : DataObj) (a : Ref) (ha : a < h.next) :
    lookupData (allocData h o).1 a = lookupData h a := by
  unfold lookupData allocData
  rw [find?_cons_false]
  simp only [beq_eq_false_iff_ne, ne_eq]
  show ¬h.next = a
  exact ne_of_gt ha

theorem lookupReq_allocReq_lt (h : Heap) (o : ReqObj) (a : Ref) (ha : a < h.next) :
    lookupReq (allocReq h o).1 a = lookupReq h a := by
  unfold lookupReq allocReq
  rw [find?_cons_false]
  simp only [beq_eq_false_iff_ne, ne_eq]
  show ¬h.next = a
  exact ne_of_gt ha

theorem find?_write_ne (l : List (Ref × ReqObj)) (rq a : Ref) (o : ReqObj) (hne : a ≠ rq) :
    List.find? (fun p => p.1 == a) (l.map (fun p => if p.1 = rq then (p.1, o) else p)) =
      List.find? (fun p => p.1 == a) l := by
  induction l with
  | nil => rfl
  | cons p rest ih =>
    simp only [List.map_cons]
    by_cases hp : p.1 = rq
    · rw [if_pos hp]
      have h1 : ((p.1, o).1 == a) = false := by
        simp only [beq_eq_false_iff_ne, ne_eq, hp]
        exact fun hc => hne hc.symm
      have h2 : (p.1 == a) = false := by
        simp only [beq_eq_false_iff_ne, ne_eq, hp]
        exact fun hc => hne hc.symm
      rw [find?_cons_false (fun q => q.1 == a) (p.1, o) _ h1,
        find?_cons_false (fun q => q.1 == a) p _ h2]
      exact ih
    · rw [if_neg hp]
      cases hpa : (p.1 == a) with
      | true =>
        rw [find?_cons_true (fun q => q.1 == a) p _ hpa,
          find?_cons_true (fun q => q.1 == a) p _ hpa]
      | false =>
        rw [find?_cons_false (fun q => q.1 == a) p _ hpa,
          find?_cons_false (fun q => q.1 == a) p _ hpa]
        exact ih

theorem find?_write_self (l : List (Ref × ReqObj)) (rq : Ref) (o : ReqObj)
    (h0 : (List.find? (fun p => p.1 == rq) l).isSome = true) :
    Option.map Prod.snd
        (List.find? (fun p => p.1 == rq) (l.map (fun p => if p.1 = rq then (p.1, o) else p))) =
      some o := by
  induction l with
  | nil => simp [List.find?] at h0
  | cons p rest ih =>
    simp only [List.map_cons]
    by_cases hp : p.1 = rq
    · rw [if_pos hp]
      have h1 : ((p.1, o).1 == rq) = true := by simp [hp]
      rw [find?_cons_true (fun q => q.1 == rq) (p.1, o) _ h1]
      rfl
    · have hpr : (p.1 == rq) = false := by simp [hp]
      rw [if_neg hp, find?_cons_false (fun q => q.1 == rq) p _ hpr]
      rw [find?_cons_false (fun q => q.1 == rq) p _ hpr] at h0
      exact ih h0

theorem lookupReq_allocReq_self (h : Heap) (o : ReqObj) :
    lookupReq (allocReq h o).1 h.next = some o := by
  unfold lookupReq allocReq
  rw [find?_cons_true] <;> simp

theorem lookupData_allocData_self (h : Heap) (o : DataObj) :
    lookupData (allocData h o).1 h.next = some o := by
  unfold lookupData allocData
  rw [find?_cons_true] <;> simp

theorem lookupData_writeReq (h : Heap) (rq : Ref) (o : ReqObj) (a : Ref) :
    lookupData (writeReq h rq o) a = lookupData h a := rfl

theorem lookupReq_writeReq_ne (h : Heap) (rq : Ref) (o : ReqObj) (a : Ref) (hne : a ≠ rq) :
    lookupReq (writeReq h rq o) a = lookupReq h a := by
  unfold lookupReq writeReq
  exact congrArg (Option.map Prod.snd) (find?_write_ne h.reqs rq a o hne)

theorem lookupReq_writeReq_self (h : Heap) (rq : Ref) (o o0 : ReqObj)
    (h0 : lookupReq h rq = some o0) :
    lookupReq (writeReq h rq o) rq = some o := by
  unfold lookupReq at h0
  have hs : (List.find? (fun p => p.1 == rq) h.reqs).isSome = true := by
    cases hf : List.find? (fun p => p.1 == rq) h.reqs with
    | none => rw [hf] at h0; cases h0
    | some pr => rfl
  unfold lookupReq writeReq
  exact find?_write_self h.reqs rq o hs

theorem lookupReq_lt (h : Heap) (a : Ref) (o : ReqObj) (hwf : heapWF h)
    (ho : lookupReq h a = some o) : a < h.next := by
  unfold lookupReq at ho
  rcases Option.map_eq_some'.mp ho with ⟨pr, hf, _⟩
  have hm := List.mem_of_find?_eq_some hf
  have hb := List.find?_some hf
  simp only [beq_iff_eq] at hb
  have hlt := hwf.1 pr hm
  exact hb ▸ hlt

theorem lookupData_lt (h : Heap) (a : Ref) (o : DataObj) (hwf : heapWF h)
    (ho : lookupData h a = some o) : a < h.next := by
  unfold lookupData at ho
  rcases Option.map_eq_some'.mp ho with ⟨pr, hf, _⟩
  have hm := List.mem_of_find?_eq_some hf
  have hb := List.find?_some hf
  simp only [beq_iff_eq] at hb
  have hlt := hwf.2 pr hm
  exact hb ▸ hlt

/-- The `data` object the normalizer allocates for the copy: the placeholder
branch substitutes `last` by `prev` in the default slug, the other branch keeps
a caller-supplied `dateRange` and falls back to the default. -/
def normDataObj (df : DataObj) (slug : String) : DataObj :=
  if df.dateRange = some "prev-date-range-placeholder" then
    { df with dateRange := some (replaceFirst slug "last" "prev") }
  else
    { df with dateRange := match df.dateRange with
                           | some d => some d
                           | none => some slug }

/-- Execution of `requestWithDateRangeRef` on a well-formed original request:
it allocates the scratch empty data object at `h.next`, the copied request
object at `h.next + 1`, the new data object at `h.next + 2`, and writes only
to the copy. -/
theorem requestWithDateRangeRef_run (h : Heap) (a : Ref) (slug : String) (o : ReqObj)
    (da : Ref) (df : DataObj) (hwf : heapWF h) (ho : lookupReq h a = some o)
    (hd : o.dataRef = some da) (hdf : lookupData h da = some df) :
    requestWithDateRangeRef h a slug =
      (writeReq (allocData (allocReq (allocData h ⟨none, ""⟩).1
            { o with dataRef := some da }).1 (normDataObj df slug)).1
          (h.next + 1)
          { o with dataRef := some (h.next + 2) },
        some (h.next + 1)) := by
  have hda : da < h.next := lookupData_lt h da df hwf hdf
  have hdf2 : lookupData (allocReq (allocData h ⟨none, ""⟩).1
      { o with dataRef := some da }).1 da = some df := by
    rw [lookupData_allocReq, lookupData_allocData_lt _ _ _ hda]
    exact hdf
  unfold requestWithDateRangeRef
  rw [ho]
  simp only [hd, Option.getD_some]
  rw [hdf2]
  by_cases hph : df.dateRange = some "prev-date-range-placeholder"
  · simp only [Option.getD_some, hph, if_pos, normDataObj, allocReq, allocData]
  · simp only [Option.getD_some, hph, Bool.false_eq_true, if_neg, if_false,
      normDataObj, allocReq, allocData]

/-- C10: request normalization never mutates its input. For every well-formed
heap, original request object and data object, `requestWithDateRange` returns
a freshly allocated request object (a reference distinct from the original)
holding a freshly allocated data object (distinct from the original data
object), and after the scheduler attaches the cache key to the copy, the
original request object and its data object still hold exactly their old
field values. -/
theorem c10_requestWithDateRange_no_mutation (h : Heap) (a da : Ref) (o : ReqObj) (df : DataObj)
    (slug : String) (hwf : heapWF h) (ho : lookupReq h a = some o)
    (hd : o.dataRef = some da) (hdf : lookupData h da = some df) :
    ∃ H rq, requestWithDateRangeRef h a slug = (H, some rq) ∧
      rq ≠ a ∧
      lookupReq (attachKeyRef H rq) a = some o ∧
      lookupData (attachKeyRef H rq) da = some df ∧
      ∃ o2 d2, lookupReq (attachKeyRef H rq) rq = some o2 ∧
        o2.dataRef = some d2 ∧ d2 ≠ da ∧
        lookupData (attachKeyRef H rq) d2 = some (normDataObj df slug) := by
  have ha : a < h.next := lookupReq_lt h a o hwf ho
  have hda : da < h.next := lookupData_lt h da df hwf hdf
  have hane : a ≠ h.next + 1 := ne_of_lt (lt_trans ha (Nat.lt_succ_self _))
  have hrun := requestWithDateRangeRef_run h a slug o da df hwf ho hd hdf
  have hrq2 : lookupReq (allocData (allocReq (allocData h ⟨none, ""⟩).1
      { o with dataRef := some da }).1 (normDataObj df slug)).1 (h.next + 1) =
      some { o with dataRef := some da } := by
    rw [lookupReq_allocData]
    exact lookupReq_allocReq_self (allocData h ⟨none, ""⟩).1 { o with dataRef := some da }
  have hH1 : lookupReq (writeReq (allocData (allocReq (allocData h ⟨none, ""⟩).1
        { o with dataRef := some da }).1 (normDataObj df slug)).1
        (h.next + 1) { o with dataRef := some (h.next + 2) }) (h.next + 1) =
      some { o with dataRef := some (h.next + 2) } :=
    lookupReq_writeReq_self _ _ _ _ hrq2
  have hdataH : lookupData (writeReq (allocData (allocReq (allocData h ⟨none, ""⟩).1
        { o with dataRef := some da }).1 (normDataObj df slug)).1
        (h.next + 1) { o with dataRef := some (h.next + 2) }) (h.next + 2) =
      some (normDataObj df slug) := by
    rw [lookupData_writeReq]
    exact lookupData_allocData_self _ _
  have hattach : attachKeyRef (writeReq (allocData (allocReq (allocData h ⟨none, ""⟩).1
        { o with dataRef := some da }).1 (normDataObj df slug)).1
        (h.next + 1) { o with dataRef := some (h.next + 2) }) (h.next + 1) =
      writeReq (writeReq (allocData (allocReq (allocData h ⟨none, ""⟩).1
        { o with dataRef := some da }).1 (normDataObj df slug)).1
        (h.next + 1) { o with dataRef := some (h.next + 2) }) (h.next + 1)
        { o with
            dataRef := some (h.next + 2),
            key := some (getCacheKey o.rtype o.identifier o.datapoint (normDataObj df slug)) } := by
    unfold attachKeyRef
    rw [hH1]
    simp only [hdataH, Option.getD_some]
  refine ⟨_, h.next + 1, hrun, Ne.symm hane, ?_, ?_, ?_⟩
  · rw [hattach, lookupReq_writeReq_ne _ _ _ _ hane, lookupReq_writeReq_ne _ _ _ _ hane,
      lookupReq_allocData,
      lookupReq_allocReq_lt _ _ _ (lt_trans ha (Nat.lt_succ_self _)),
      lookupReq_allocData]
    exact ho
  · rw [hattach, lookupData_writeReq, lookupData_writeReq,
      lookupData_allocData_lt _ _ _ (Nat.lt_succ_of_lt (Nat.lt_succ_of_lt hda)),
      lookupData_allocReq,
      lookupData_allocData_lt _ _ _ hda]
    exact hdf
  · refine ⟨{ o with
        dataRef := some (h.next + 2),
        key := some (getCacheKey o.rtype o.identifier o.datapoint (normDataObj df slug)) },
      h.next + 2, ?_, rfl, Ne.symm (ne_of_lt (Nat.lt_succ_of_lt (Nat.lt_succ_of_lt hda))), ?_⟩
    · rw [hattach]
      exact lookupReq_writeReq_self _ _ _ _ hH1
    · rw [hattach, lookupData_writeReq]
      exact hdataH

/-! ### Projection lemmas for one scheduling pass -/

theorem passCore_proj (cacheHits : List (Request × Value))
    (dataRequest deferred toRequest : List Request) (km : KeyMap) (counter : Nat) :
    (passCore cacheHits dataRequest deferred toRequest km counter).dataRequest = dataRequest ∧
    (passCore cacheHits dataRequest deferred toRequest km counter).toRequest = toRequest ∧
    (passCore cacheHits dataRequest deferred toRequest km counter).deferred = deferred ∧
    (passCore cacheHits dataRequest deferred toRequest km counter).keyIndexesMap = km ∧
    (passCore cacheHits dataRequest deferred toRequest km counter).chunk =
      toRequest.take maxDatapointsPerRequest ∧
    (passCore cacheHits dataRequest deferred toRequest km counter).remaining =
      toRequest.drop maxDatapointsPerRequest ++ deferred ∧
    (passCore cacheHits dataRequest deferred toRequest km counter).cacheHits = cacheHits := by
  unfold passCore
  by_cases hc : ((toRequest.take maxDatapointsPerRequest).isEmpty
      && (toRequest.drop maxDatapointsPerRequest ++ deferred).isEmpty) = true
  · simp [hc]
  · simp only [Bool.not_eq_true] at hc
    simp [hc]

/-- The branch-dependent fields of `passCore`: the all-from-cache early return
versus the network path with its retry-counter handling. -/
theorem passCore_sched_spec (cacheHits : List (Request × Value))
    (dataRequest deferred toRequest : List Request) (km : KeyMap) (counter : Nat) :
    ((toRequest.take maxDatapointsPerRequest = [] ∧
        toRequest.drop maxDatapointsPerRequest ++ deferred = []) →
      (passCore cacheHits dataRequest deferred toRequest km counter).networkCall = false ∧
      (passCore cacheHits dataRequest deferred toRequest km counter).counter = counter ∧
      (passCore cacheHits dataRequest deferred toRequest km counter).scheduledRecursion = false ∧
      (passCore cacheHits dataRequest deferred toRequest km counter).actions = ["cache"]) ∧
    (¬(toRequest.take maxDatapointsPerRequest = [] ∧
        toRequest.drop maxDatapointsPerRequest ++ deferred = []) →
      (passCore cacheHits dataRequest deferred toRequest km counter).networkCall = true ∧
      (passCore cacheHits dataRequest deferred toRequest km counter).actions = [] ∧
      (passCore cacheHits dataRequest deferred toRequest km counter).scheduledRecursion =
        (!(toRequest.drop maxDatapointsPerRequest ++ deferred).isEmpty && decide (0 < counter)) ∧
      (passCore cacheHits dataRequest deferred toRequest km counter).recursionDelayMs =
        (if (!(toRequest.drop maxDatapointsPerRequest ++ deferred).isEmpty && decide (0 < counter))
         then some 50 else none) ∧
      (passCore cacheHits dataRequest deferred toRequest km counter).counter =
        (if (!(toRequest.drop maxDatapointsPerRequest ++ deferred).isEmpty && decide (0 < counter))
         then counter - 1 else initialMaxRequests)) := by
  unfold passCore
  by_cases hc : ((toRequest.take maxDatapointsPerRequest).isEmpty
      && (toRequest.drop maxDatapointsPerRequest ++ deferred).isEmpty) = true
  · simp only [Bool.and_eq_true, List.isEmpty_iff] at hc
    simp [hc]
  · simp only [Bool.and_eq_true, List.isEmpty_iff, not_and_or] at hc
    constructor
    · intro hcon
      exact absurd hcon (by tauto)
    · intro _
      have hc2 : ((toRequest.take maxDatapointsPerRequest).isEmpty
          && (toRequest.drop maxDatapointsPerRequest ++ deferred).isEmpty) = false := by
        rcases hc with hc | hc <;> simp [List.isEmpty_iff, hc]
      · simp [hc2]

/-- `combinedGetPass` in terms of its ingredients: sorted cache misses, the
dedup loop outputs, and the chunk slicing. -/
theorem combinedGetPass_fields (cache : Cache) (reqs : List Request)
    (secondary : Bool) (counter : Nat) (slug : String) :
    (combinedGetPass cache reqs secondary counter slug).dataRequest =
      List.insertionSort (fun a b => a.priority ≤ b.priority)
        (List.filter (fun r => (getCache cache (keyOf r) r.maxAge).isNone)
          (reqs.map (fun r => requestWithDateRange r slug))) ∧
    (combinedGetPass cache reqs secondary counter slug).toRequest =
      (buildQueuesGo secondary
        ((combinedGetPass cache reqs secondary counter slug).dataRequest.any
          (fun r => decide (r.priority < 10)))
        (combinedGetPass cache reqs secondary counter slug).dataRequest 0 ([], [], [])).1 ∧
    (combinedGetPass cache reqs secondary counter slug).deferred =
      (buildQueuesGo secondary
        ((combinedGetPass cache reqs secondary counter slug).dataRequest.any
          (fun r => decide (r.priority < 10)))
        (combinedGetPass cache reqs secondary counter slug).dataRequest 0 ([], [], [])).2.1 ∧
    (combinedGetPass cache reqs secondary counter slug).keyIndexesMap =
      (buildQueuesGo secondary
        ((combinedGetPass cache reqs secondary counter slug).dataRequest.any
          (fun r => decide (r.priority < 10)))
        (combinedGetPass cache reqs secondary counter slug).dataRequest 0 ([], [], [])).2.2 ∧
    (combinedGetPass cache reqs secondary counter slug).chunk =
      (combinedGetPass cache reqs secondary counter slug).toRequest.take
        maxDatapointsPerRequest ∧
    (combinedGetPass cache reqs secondary counter slug).remaining =
      (combinedGetPass cache reqs secondary counter slug).toRequest.drop
        maxDatapointsPerRequest ++
        (combinedGetPass cache reqs secondary counter slug).deferred := by
  unfold combinedGetPass
  obtain ⟨h1, h2, h3, h4, h5, h6, h7⟩ := passCore_proj
    ((reqs.map (fun r => requestWithDateRange r slug)).filterMap
      (fun r => (getCache cache (keyOf r) r.maxAge).map (fun v => (r, v))))
    (List.insertionSort (fun a b => a.priority ≤ b.priority)
      (List.filter (fun r => (getCache cache (keyOf r) r.maxAge).isNone)
        (reqs.map (fun r => requestWithDateRange r slug))))
    (buildQueuesGo secondary
      ((List.insertionSort (fun a b => a.priority ≤ b.priority)
        (List.filter (fun r => (getCache cache (keyOf r) r.maxAge).isNone)
          (reqs.map (fun r => requestWithDateRange r slug)))).any
        (fun r => decide (r.priority < 10)))
      (List.insertionSort (fun a b => a.priority ≤ b.priority)
        (List.filter (fun r => (getCache cache (keyOf r) r.maxAge).isNone)
          (reqs.map (fun r => requestWithDateRange r slug)))) 0 ([], [], [])).2.1
    (buildQueuesGo secondary
      ((List.insertionSort (fun a b => a.priority ≤ b.priority)
        (List.filter (fun r => (getCache cache (keyOf r) r.maxAge).isNone)
          (reqs.map (fun r => requestWithDateRange r slug)))).any
        (fun r => decide (r.priority < 10)))
      (List.insertionSort (fun a b => a.priority ≤ b.priority)
        (List.filter (fun r => (getCache cache (keyOf r) r.maxAge).isNone)
          (reqs.map (fun r => requestWithDateRange r slug)))) 0 ([], [], [])).1
    (buildQueuesGo secondary
      ((List.insertionSort (fun a b => a.priority ≤ b.priority)
        (List.filter (fun r => (getCache cache (keyOf r) r.maxAge).isNone)
          (reqs.map (fun r => requestWithDateRange r slug)))).any
        (fun r => decide (r.priority < 10)))
      (List.insertionSort (fun a b => a.priority ≤ b.priority)
        (List.filter (fun r => (getCache cache (keyOf r) r.maxAge).isNone)
          (reqs.map (fun r => requestWithDateRange r slug)))) 0 ([], [], [])).2.2
    counter
  refine ⟨h1, ?_, ?_, ?_, ?_, ?_⟩ <;> rw [h1] at * <;> simp_all

/-! ### Claim theorems: normalizer -/

/-- C9: the Normalizer fills `request.data.dateRange` with the current
date-range slug only when the caller did not supply one; and when it equals
`prev-date-range-placeholder`, it is replaced by the current slug with `last`
substituted by `prev` (the first occurrence, which for the `last*` slugs is
the prefix) and the function returns at once, leaving everything else of the
request unchanged (no other default-filling happens). -/
theorem c9_requestWithDateRange_fills_dateRange (r : Request) (slug : String) :
    (r.data.dateRange = none →
      requestWithDateRange r slug =
        { r with data := { r.data with dateRange := some slug } }) ∧
    (∀ d, r.data.dateRange = some d → d ≠ "prev-date-range-placeholder" →
      requestWithDateRange r slug = { r with data := { r.data with dateRange := some d } }) ∧
    (r.data.dateRange = some "prev-date-range-placeholder" →
      requestWithDateRange r slug =
        { r with data := { r.data with
          dateRange := some (replaceFirst slug "last" "prev") } }) := by
  refine ⟨?_, ?_, ?_⟩
  · intro hr
    unfold requestWithDateRange
    rw [hr]
    simp
  · intro d hr hd
    unfold requestWithDateRange
    rw [hr]
    simp [hd]
  · intro hr
    unfold requestWithDateRange
    rw [hr]
    simp

def c9req (dr : Option String) : Request :=
  { rtype := "modules", identifier := "search-console", datapoint := "searchanalytics",
    data := { dateRange := dr, extra := "" }, maxAge := 3600, priority := 1,
    cbId := 0, cbThrows := false }

theorem c9_witness :
    (requestWithDateRange (c9req none) "last-28-days").data.dateRange = some "last-28-days" ∧
    (requestWithDateRange (c9req (some "last-90-days")) "last-28-days").data.dateRange =
      some "last-90-days" ∧
    (requestWithDateRange (c9req (some "prev-date-range-placeholder"))
      "last-28-days").data.dateRange = some "prev-28-days" := by
  refine ⟨?_, ?_, ?_⟩
  · rw [(c9_requestWithDateRange_fills_dateRange (c9req none) "last-28-days").1 rfl]
  · rw [(c9_requestWithDateRange_fills_dateRange (c9req (some "last-90-days"))
      "last-28-days").2.1 "last-90-days" rfl (by decide)]
  · rw [(c9_requestWithDateRange_fills_dateRange (c9req (some "prev-date-range-placeholder"))
      "last-28-days").2.2 rfl]
    decide

def c10obj : ReqObj :=
  { rtype := "modules", identifier := "analytics", datapoint := "report",
    dataRef := some 1, key := none, maxAge := 3600, priority := 1 }

def c10data : DataObj :=
  { dateRange := some "last-28-days", extra := "url=x" }

def c10heap : Heap :=
  { reqs := [(0, c10obj)], datas := [(1, c10data)], next := 2 }

theorem c10_witness :
    ∃ H rq, requestWithDateRangeRef c10heap 0 "last-28-days" = (H, some rq) ∧
      rq ≠ 0 ∧
      lookupReq (attachKeyRef H rq) 0 = some c10obj ∧
      lookupData (attachKeyRef H rq) 1 = some c10data ∧
      ∃ o2 d2, lookupReq (attachKeyRef H rq) rq = some o2 ∧
        o2.dataRef = some d2 ∧ d2 ≠ 1 ∧
        lookupData (attachKeyRef H rq) d2 = some (normDataObj c10data "last-28-days") :=
  c10_requestWithDateRange_no_mutation c10heap 0 1 c10obj c10data
    "last-28-days" (by constructor <;> decide) rfl rfl rfl

/-! ### Claim theorems: scheduler -/

/-- C3: dedup before chunk. For every `combinedGet` pass, the chunk sent over
the wire holds pairwise distinct cache keys; `toRequest` keeps exactly the
first occurrence of each key among the (non-deferred) sorted requests (the
representative sent over the wire); and `keyIndexesMap` records, for every
key, exactly the indexes of all non-deferred requests sharing that key, so
the response handler can deliver the shared result to each of them. -/
theorem c3_dedup_before_chunk (cache : Cache) (reqs : List Request)
    (secondary : Bool) (counter : Nat) (slug : String) :
    (combinedGetPass cache reqs secondary counter slug).chunk.Pairwise
      (fun a b => keyOf a ≠ keyOf b) ∧
    (combinedGetPass cache reqs secondary counter slug).toRequest =
      toReqSpec secondary
        ((combinedGetPass cache reqs secondary counter slug).dataRequest.any
          (fun r => decide (r.priority < 10)))
        [] (combinedGetPass cache reqs secondary counter slug).dataRequest ∧
    (∀ k, lookupKM (combinedGetPass cache reqs secondary counter slug).keyIndexesMap k =
      (if kmIdxSpec secondary
          ((combinedGetPass cache reqs secondary counter slug).dataRequest.any
            (fun r => decide (r.priority < 10)))
          (combinedGetPass cache reqs secondary counter slug).dataRequest 0 k = []
       then none
       else some (kmIdxSpec secondary
          ((combinedGetPass cache reqs secondary counter slug).dataRequest.any
            (fun r => decide (r.priority < 10)))
          (combinedGetPass cache reqs secondary counter slug).dataRequest 0 k))) := by
  obtain ⟨hdr, htr, hdef, hkm, hch, hrem⟩ :=
    combinedGetPass_fields cache reqs secondary counter slug
  have htr2 : (combinedGetPass cache reqs secondary counter slug).toRequest =
      toReqSpec secondary
        ((combinedGetPass cache reqs secondary counter slug).dataRequest.any
          (fun r => decide (r.priority < 10)))
        [] (combinedGetPass cache reqs secondary counter slug).dataRequest := by
    rw [htr, buildQueuesGo_toReq]
    rfl
  refine ⟨?_, htr2, ?_⟩
  · rw [hch, htr2]
    exact ((toReqSpec_keys secondary _ []
      (combinedGetPass cache reqs secondary counter slug).dataRequest).1).sublist
      (List.take_sublist _ _)
  · intro k
    rw [hkm, buildQueuesGo_km_none]
    rfl

/-- C4: the priority split of a primary pass. If some cache-missed request
has priority below 10, then every cache-missed request with priority 10 or
more is excluded from the current chunk and lands in the remaining list; if
none has priority below 10, nothing is deferred. -/
theorem c4_priority_split (cache : Cache) (reqs : List Request) (counter : Nat)
    (slug : String) :
    ((∃ r ∈ (combinedGetPass cache reqs false counter slug).dataRequest,
        r.priority < 10) →
      ∀ r ∈ (combinedGetPass cache reqs false counter slug).dataRequest,
        10 ≤ r.priority →
          r ∉ (combinedGetPass cache reqs false counter slug).chunk ∧
          r ∈ (combinedGetPass cache reqs false counter slug).remaining) ∧
    ((∀ r ∈ (combinedGetPass cache reqs false counter slug).dataRequest,
        10 ≤ r.priority) →
      (combinedGetPass cache reqs false counter slug).deferred = []) := by
  obtain ⟨hdr, htr, hdef, hkm, hch, hrem⟩ :=
    combinedGetPass_fields cache reqs false counter slug
  constructor
  · intro hlow r hr hpri
    have hlex : (combinedGetPass cache reqs false counter slug).dataRequest.any
        (fun r => decide (r.priority < 10)) = true := by
      rw [List.any_eq_true]
      obtain ⟨x, hx, hxp⟩ := hlow
      exact ⟨x, hx, by simpa using hxp⟩
    have hdc : deferCond false ((combinedGetPass cache reqs false counter slug).dataRequest.any
        (fun r => decide (r.priority < 10))) r = true := by
      unfold deferCond
      simp [hlex, hpri]
    constructor
    · intro hmem
      rw [hch, htr, buildQueuesGo_toReq] at hmem
      have hmem2 := List.take_subset maxDatapointsPerRequest _ hmem
      simp only [List.nil_append] at hmem2
      have := toReqSpec_not_deferred false _ (List.map Prod.fst ([] : KeyMap)) _ r hmem2
      rw [hdc] at this
      cases this
    · rw [hrem, hdef, buildQueuesGo_deferred]
      refine List.mem_append.mpr (Or.inr ?_)
      simp only [List.nil_append]
      exact List.mem_filter.mpr ⟨hr, hdc⟩
  · intro hall
    have hlex : (combinedGetPass cache reqs false counter slug).dataRequest.any
        (fun r => decide (r.priority < 10)) = false := by
      rw [List.any_eq_false]
      intro x hx
      simpa using hall x hx
    rw [hdef, buildQueuesGo_deferred]
    simp only [List.nil_append, List.filter_eq_nil_iff]
    intro x hx
    unfold deferCond
    rw [hlex]
    simp

def c4reqLow : Request :=
  { rtype := "modules", identifier := "search-console", datapoint := "searchanalytics",
    data := { dateRange := none, extra := "" }, maxAge := 3600, priority := 1,
    cbId := 0, cbThrows := false }

def c4reqHigh : Request :=
  { rtype := "modules", identifier := "adsense", datapoint := "earnings",
    data := { dateRange := none, extra := "" }, maxAge := 3600, priority := 12,
    cbId := 1, cbThrows := false }

theorem c4_witness :
    (requestWithDateRange c4reqHigh "last-28-days" ∉
      (combinedGetPass [] [c4reqLow, c4reqHigh] false 10 "last-28-days").chunk ∧
     requestWithDateRange c4reqHigh "last-28-days" ∈
      (combinedGetPass [] [c4reqLow, c4reqHigh] false 10 "last-28-days").remaining) ∧
    (combinedGetPass [] [c4reqLow, c4reqHigh] true 10 "last-28-days").deferred = [] ∧
    (combinedGetPass [] [c4reqHigh] false 10 "last-28-days").deferred = [] := by
  refine ⟨?_, by decide, ?_⟩
  · exact (c4_priority_split [] [c4reqLow, c4reqHigh] 10 "last-28-days").1
      (by decide) (requestWithDateRange c4reqHigh "last-28-days") (by decide) (by decide)
  · exact (c4_priority_split [] [c4reqHigh] 10 "last-28-days").2 (by decide)

theorem passCore_retry (cacheHits : List (Request × Value))
    (dataRequest deferred toRequest : List Request) (km : KeyMap) (counter : Nat) :
    ((passCore cacheHits dataRequest deferred toRequest km counter).remaining ≠ [] →
      0 < counter →
      (passCore cacheHits dataRequest deferred toRequest km counter).scheduledRecursion = true ∧
      (passCore cacheHits dataRequest deferred toRequest km counter).recursionDelayMs = some 50 ∧
      (passCore cacheHits dataRequest deferred toRequest km counter).counter = counter - 1) ∧
    ((passCore cacheHits dataRequest deferred toRequest km counter).remaining ≠ [] →
      counter = 0 →
      (passCore cacheHits dataRequest deferred toRequest km counter).scheduledRecursion = false ∧
      (passCore cacheHits dataRequest deferred toRequest km counter).counter =
        initialMaxRequests) ∧
    ((passCore cacheHits dataRequest deferred toRequest km counter).remaining = [] →
      (passCore cacheHits dataRequest deferred toRequest km counter).chunk ≠ [] →
      (passCore cacheHits dataRequest deferred toRequest km counter).scheduledRecursion = false ∧
      (passCore cacheHits dataRequest deferred toRequest km counter).counter =
        initialMaxRequests) := by
  obtain ⟨-, -, -, -, hch, hrem, -⟩ :=
    passCore_proj cacheHits dataRequest deferred toRequest km counter
  obtain ⟨hc1, hc2⟩ := passCore_sched_spec cacheHits dataRequest deferred toRequest km counter
  refine ⟨?_, ?_, ?_⟩
  · intro hr h0
    rw [hrem] at hr
    have hcond : ¬(toRequest.take maxDatapointsPerRequest = [] ∧
        toRequest.drop maxDatapointsPerRequest ++ deferred = []) := fun hc => hr hc.2
    obtain ⟨-, -, hs, hdel, hcnt⟩ := hc2 hcond
    have hb : (!(toRequest.drop maxDatapointsPerRequest ++ deferred).isEmpty
        && decide (0 < counter)) = true := by
      simp [List.isEmpty_iff, hr, h0]
    rw [hs, hdel, hcnt, hb]
    simp
  · intro hr h0
    rw [hrem] at hr
    have hcond : ¬(toRequest.take maxDatapointsPerRequest = [] ∧
        toRequest.drop maxDatapointsPerRequest ++ deferred = []) := fun hc => hr hc.2
    obtain ⟨-, -, hs, -, hcnt⟩ := hc2 hcond
    have hb : (!(toRequest.drop maxDatapointsPerRequest ++ deferred).isEmpty
        && decide (0 < counter)) = false := by
      simp [h0]
    rw [hs, hcnt, hb]
    simp
  · intro hr hchn
    rw [hch] at hchn
    rw [hrem] at hr
    have hcond : ¬(toRequest.take maxDatapointsPerRequest = [] ∧
        toRequest.drop maxDatapointsPerRequest ++ deferred = []) := fun hc => hchn hc.1
    obtain ⟨-, -, hs, -, hcnt⟩ := hc2 hcond
    have hb : (!(toRequest.drop maxDatapointsPerRequest ++ deferred).isEmpty
        && decide (0 < counter)) = false := by
      simp [List.isEmpty_iff, hr]
    rw [hs, hcnt, hb]
    simp

/-- C6 (amended): for every pass with a non-empty remaining list, a positive
counter means the 50ms recursive secondary pass is scheduled and the counter
is decremented once; an exhausted counter means no recursion (the remaining
requests are dropped) and the counter is reset to its initial value 10; and a
pass that reaches the network with an empty remaining list also resets the
counter. (On the all-from-cache early return the counter is left unchanged —
see the counterexample.) -/
theorem c6_retry_counter (cache : Cache) (reqs : List Request) (secondary : Bool)
    (counter : Nat) (slug : String) :
    initialMaxRequests = 10 ∧
    ((combinedGetPass cache reqs secondary counter slug).remaining ≠ [] → 0 < counter →
      (combinedGetPass cache reqs secondary counter slug).scheduledRecursion = true ∧
      (combinedGetPass cache reqs secondary counter slug).recursionDelayMs = some 50 ∧
      (combinedGetPass cache reqs secondary counter slug).counter = counter - 1) ∧
    ((combinedGetPass cache reqs secondary counter slug).remaining ≠ [] → counter = 0 →
      (combinedGetPass cache reqs secondary counter slug).scheduledRecursion = false ∧
      (combinedGetPass cache reqs secondary counter slug).counter = initialMaxRequests) ∧
    ((combinedGetPass cache reqs secondary counter slug).remaining = [] →
      (combinedGetPass cache reqs secondary counter slug).chunk ≠ [] →
      (combinedGetPass cache reqs secondary counter slug).scheduledRecursion = false ∧
      (combinedGetPass cache reqs secondary counter slug).counter = initialMaxRequests) := by
  unfold combinedGetPass
  exact ⟨rfl, passCore_retry _ _ _ _ _ _⟩

def c6req : Request :=
  { rtype := "modules", identifier := "search-console", datapoint := "searchanalytics",
    data := { dateRange := none, extra := "" }, maxAge := 3600, priority := 1,
    cbId := 0, cbThrows := false }

def c6cache : Cache := [(keyOf (requestWithDateRange c6req "last-28-days"), 7)]

/-- C6 counterexample: when the whole batch resolves from the cache, the pass
takes the early return and the retry counter is NOT reset to its initial
value — here the queue drains (remaining and chunk both empty, the `cache`
data-loaded action fires) yet the counter stays at 7. -/
theorem c6_counterexample :
    (combinedGetPass c6cache [c6req] false 7 "last-28-days").remaining = [] ∧
    (combinedGetPass c6cache [c6req] false 7 "last-28-days").chunk = [] ∧
    (combinedGetPass c6cache [c6req] false 7 "last-28-days").actions = ["cache"] ∧
    (combinedGetPass c6cache [c6req] false 7 "last-28-days").counter = 7 ∧
    (combinedGetPass c6cache [c6req] false 7 "last-28-days").counter ≠ initialMaxRequests := by
  refine ⟨?_, ?_, ?_, ?_, ?_⟩ <;> decide

def c6reqAt (i : Nat) : Request :=
  { rtype := "modules", identifier := "m" ++ toString i, datapoint := "getReport",
    data := { dateRange := none, extra := "" }, maxAge := 3600, priority := 1,
    cbId := i, cbThrows := false }

theorem c6_witness :
    (combinedGetPass [] ((List.range 11).map c6reqAt) false 10 "last-28-days").scheduledRecursion
        = true ∧
    (combinedGetPass [] ((List.range 11).map c6reqAt) false 10 "last-28-days").recursionDelayMs
        = some 50 ∧
    (combinedGetPass [] ((List.range 11).map c6reqAt) false 10 "last-28-days").counter = 9 ∧
    ((combinedGetPass [] ((List.range 11).map c6reqAt) false 0 "last-28-days").scheduledRecursion
        = false ∧
      (combinedGetPass [] ((List.range 11).map c6reqAt) false 0 "last-28-days").counter =
        initialMaxRequests) ∧
    ((combinedGetPass [] [c6req] false 3 "last-28-days").scheduledRecursion = false ∧
      (combinedGetPass [] [c6req] false 3 "last-28-days").counter = initialMaxRequests) := by
  obtain ⟨-, h1, -, -⟩ := c6_retry_counter [] ((List.range 11).map c6reqAt) false 10 "last-28-days"
  obtain ⟨-, -, h2, -⟩ := c6_retry_counter [] ((List.range 11).map c6reqAt) false 0 "last-28-days"
  obtain ⟨-, -, -, h3⟩ := c6_retry_counter [] [c6req] false 3 "last-28-days"
  obtain ⟨ha, hb, hc⟩ := h1 (by decide) (by decide)
  obtain ⟨hd, he⟩ := h2 (by decide) rfl
  obtain ⟨hf, hg⟩ := h3 (by decide) (by decide)
  exact ⟨ha, hb, hc, ⟨hd, he⟩, ⟨hf, hg⟩⟩

/-! ### Action bookkeeping of the response handler -/

theorem classifyStep_ok_actions (ctx : ProcCtx) (s : ProcState) (r : WireResult)
    (ixs : List Nat) (s1 : ProcState) (h : classifyStep ctx s r ixs = .ok s1) :
    s1.actions = s.actions := by
  unfold classifyStep at h
  split at h
  · split at h
    · cases h
    · cases h
      rfl
  · cases h
    rfl

theorem resolveLoop_ok_actions (ctx : ProcCtx) (r : WireResult) (isErr : Bool)
    (ixs : List Nat) : ∀ (s s2 : ProcState),
    resolveLoop ctx s r isErr ixs = .ok s2 → s2.actions = s.actions := by
  induction ixs with
  | nil =>
    intro s s2 h
    cases h
    rfl
  | cons i rest ih =>
    intro s s2 h
    unfold resolveLoop at h
    split at h
    · split at h
      · exact ih _ _ h
      · cases h
    · split at h
      · cases h
      · rw [ih _ _ h]
        unfold pushResolved cacheStep
        split <;> rfl

theorem processKey_ok_actions (ctx : ProcCtx) (s : ProcState) (k : String)
    (r : WireResult) (s' : ProcState) (h : processKey ctx s k r = .ok s') :
    (s'.actions = s.actions ∨ s'.actions = s.actions ++ ["api"]) ∧
    (lookupKM ctx.keyIndexesMap k ≠ none → ctx.remainingEmpty = true →
      s'.actions = s.actions ++ ["api"]) := by
  unfold processKey at h
  split at h
  next heq =>
    cases h
    exact ⟨Or.inl rfl, fun hc _ => absurd heq hc⟩
  next ixs heq =>
    split at h
    next hC => cases h
    next s1 hC =>
      split at h
      next hR => cases h
      next s2 hR =>
        cases h
        have h1 := classifyStep_ok_actions ctx s r ixs s1 hC
        have h2 := resolveLoop_ok_actions ctx r (isWPError r) ixs s1 s2 hR
        cases hre : ctx.remainingEmpty <;> simp [h1, h2]

theorem processResultsAux_ok_actions_mono (ctx : ProcCtx) :
    ∀ (rs : List (String × WireResult)) (s s' : ProcState),
    processResultsAux ctx rs s = .ok s' → ∃ t, s'.actions = s.actions ++ t := by
  intro rs
  induction rs with
  | nil =>
    intro s s' h
    cases h
    exact ⟨[], by simp⟩
  | cons kr rest ih =>
    intro s s' h
    obtain ⟨k0, r0⟩ := kr
    unfold processResultsAux at h
    split at h
    next s1 hk =>
      obtain ⟨t, ht⟩ := ih s1 s' h
      obtain ⟨h1, -⟩ := processKey_ok_actions ctx s k0 r0 s1 hk
      rcases h1 with h1 | h1
      · exact ⟨t, by rw [ht, h1]⟩
      · exact ⟨"api" :: t, by rw [ht, h1]; simp⟩
    next s1 hk => cases h

theorem processResultsAux_api (ctx : ProcCtx) :
    ∀ (rs : List (String × WireResult)) (s s' : ProcState) (k : String) (r : WireResult),
    (k, r) ∈ rs → lookupKM ctx.keyIndexesMap k ≠ none → ctx.remainingEmpty = true →
    processResultsAux ctx rs s = .ok s' → "api" ∈ s'.actions := by
  intro rs
  induction rs with
  | nil =>
    intro s s' k r hmem
    cases hmem
  | cons kr rest ih =>
    intro s s' k r hmem hkm hre h
    obtain ⟨k0, r0⟩ := kr
    unfold processResultsAux at h
    split at h
    next s1 hk =>
      rcases List.mem_cons.mp hmem with heq | hmem2
      · have hkr : k0 = k := by
          cases heq
          rfl
        obtain ⟨-, h2⟩ := processKey_ok_actions ctx s k0 r0 s1 hk
        have hapi : "api" ∈ s1.actions := by
          rw [h2 (by rw [hkr]; exact hkm) hre]
          simp
        obtain ⟨t, ht⟩ := processResultsAux_ok_actions_mono ctx rest s1 s' h
        rw [ht]
        exact List.mem_append_left _ hapi
      · exact ih s1 s' k r hmem2 hkm hre h
    next s1 hk => cases h

/-- C7: batch-completion signals. When the current chunk and the remaining
list are both empty, the pass fires the `cache` data-loaded action and makes
no network call; and when the remaining list is empty, a batch response whose
processing runs to completion (no exception) and that contains at least one
key known to `keyIndexesMap` fires the `api` data-loaded action. -/
theorem c7_batch_complete (cache : Cache) (reqs : List Request) (secondary : Bool)
    (counter : Nat) (slug : String) (ctx : ProcCtx)
    (results : List (String × WireResult)) (k : String) (r : WireResult) :
    ((combinedGetPass cache reqs secondary counter slug).chunk = [] →
      (combinedGetPass cache reqs secondary counter slug).remaining = [] →
      (combinedGetPass cache reqs secondary counter slug).networkCall = false ∧
      (combinedGetPass cache reqs secondary counter slug).actions = ["cache"]) ∧
    (ctx.remainingEmpty = true → (k, r) ∈ results →
      lookupKM ctx.keyIndexesMap k ≠ none →
      (processResults ctx results).2 = false →
      "api" ∈ (processResults ctx results).1.actions) := by
  constructor
  · intro hch hrem
    unfold combinedGetPass at hch hrem ⊢
    obtain ⟨-, -, -, -, hch2, hrem2, -⟩ := passCore_proj
      ((reqs.map (fun r => requestWithDateRange r slug)).filterMap
        (fun r => (getCache cache (keyOf r) r.maxAge).map (fun v => (r, v))))
      _ _ _ _ counter
    obtain ⟨hc1, -⟩ := passCore_sched_spec
      ((reqs.map (fun r => requestWithDateRange r slug)).filterMap
        (fun r => (getCache cache (keyOf r) r.maxAge).map (fun v => (r, v))))
      _ _ _ _ counter
    obtain ⟨hn, -, -, ha⟩ := hc1 ⟨by rw [← hch2]; exact hch, by rw [← hrem2]; exact hrem⟩
    exact ⟨hn, ha⟩
  · intro hre hmem hkm hok
    unfold processResults at hok ⊢
    cases haux : processResultsAux ctx results emptyProc with
    | error e =>
      rw [haux] at hok
      simp at hok
    | ok s' => exact processResultsAux_api ctx results emptyProc s' k r hmem hkm hre haux

def c7ctx : ProcCtx :=
  { dataRequest := [c6req], keyIndexesMap := [(keyOf c6req, [0])], remainingEmpty := true }

theorem c7_witness :
    ((combinedGetPass c6cache [c6req] false 10 "last-28-days").networkCall = false ∧
     (combinedGetPass c6cache [c6req] false 10 "last-28-days").actions = ["cache"]) ∧
    "api" ∈ (processResults c7ctx [(keyOf c6req, WireResult.ok 5)]).1.actions := by
  obtain ⟨h1, h2⟩ := c7_batch_complete c6cache [c6req] false 10 "last-28-days" c7ctx
    [(keyOf c6req, WireResult.ok 5)] (keyOf c6req) (WireResult.ok 5)
  exact ⟨h1 (by decide) (by decide), h2 rfl (by decide) (by decide) (by decide)⟩

/-! ### The chunked round driver on unique high-priority requests (C5) -/

theorem requestWithDateRange_priority (r : Request) (slug : String) :
    (requestWithDateRange r slug).priority = r.priority := by
  unfold requestWithDateRange
  split <;> rfl

theorem requestWithDateRange_ne_ph (r : Request) (slug : String)
    (h1 : r.data.dateRange ≠ some "prev-date-range-placeholder")
    (h2 : slug ≠ "prev-date-range-placeholder") :
    (requestWithDateRange r slug).data.dateRange ≠ some "prev-date-range-placeholder" := by
  unfold requestWithDateRange
  rw [if_neg h1]
  cases hdr : r.data.dateRange with
  | none =>
    simp only [hdr]
    intro hc
    exact h2 (by injection hc)
  | some d =>
    simp only [hdr]
    intro hc
    apply h1
    rw [hdr]
    exact hc

theorem requestWithDateRange_idem (r : Request) (slug : String)
    (h1 : r.data.dateRange ≠ some "prev-date-range-placeholder")
    (h2 : slug ≠ "prev-date-range-placeholder") :
    requestWithDateRange (requestWithDateRange r slug) slug = requestWithDateRange r slug := by
  have h3 := requestWithDateRange_ne_ph r slug h1 h2
  unfold requestWithDateRange at h3 ⊢
  rw [if_neg h1] at h3 ⊢
  rw [if_neg h3]
  rcases r with ⟨t, i, dp, ⟨dr, ex⟩, ma, pr, cb, th⟩
  cases dr <;> rfl

theorem map_id_of {α : Type} (l : List α) (f : α → α) (h : ∀ a ∈ l, f a = a) :
    l.map f = l := by
  induction l with
  | nil => rfl
  | cons a rest ih =>
    simp only [List.map_cons, h a (by simp)]
    refine congrArg _ (ih ?_)
    intro x hx
    exact h x (by simp [hx])

/-- A primary or secondary pass over a fresh cache with unique keys and only
high-priority (priority < 10) requests: everything is sorted into
`dataRequest`, nothing is deferred, nothing is deduplicated away, and the
chunk slicing acts on the full sorted list. -/
theorem pass_simple (slug : String) (reqs : List Request) (secondary : Bool) (counter : Nat)
    (hkeys : (((reqs.map (fun r => requestWithDateRange r slug)).map keyOf)).Pairwise (· ≠ ·))
    (hpri : ∀ r ∈ reqs, r.priority < 10) :
    (combinedGetPass [] reqs secondary counter slug).dataRequest =
      List.insertionSort (fun a b => a.priority ≤ b.priority)
        (reqs.map (fun r => requestWithDateRange r slug)) ∧
    (combinedGetPass [] reqs secondary counter slug).toRequest =
      (combinedGetPass [] reqs secondary counter slug).dataRequest ∧
    (combinedGetPass [] reqs secondary counter slug).deferred = [] ∧
    (combinedGetPass [] reqs secondary counter slug).chunk =
      (combinedGetPass [] reqs secondary counter slug).dataRequest.take
        maxDatapointsPerRequest ∧
    (combinedGetPass [] reqs secondary counter slug).remaining =
      (combinedGetPass [] reqs secondary counter slug).dataRequest.drop
        maxDatapointsPerRequest := by
  obtain ⟨hdr, htr, hdef, hkm, hch, hrem⟩ := combinedGetPass_fields [] reqs secondary counter slug
  have hfil : List.filter (fun r => (getCache [] (keyOf r) r.maxAge).isNone)
      (reqs.map (fun r => requestWithDateRange r slug)) =
      reqs.map (fun r => requestWithDateRange r slug) :=
    List.filter_eq_self.mpr (fun a _ => rfl)
  have hD : (combinedGetPass [] reqs secondary counter slug).dataRequest =
      List.insertionSort (fun a b => a.priority ≤ b.priority)
        (reqs.map (fun r => requestWithDateRange r slug)) := by
    rw [hdr, hfil]
  have hperm : List.Perm (combinedGetPass [] reqs secondary counter slug).dataRequest
      (reqs.map (fun r => requestWithDateRange r slug)) := by
    rw [hD]
    exact List.perm_insertionSort _ _
  have hmem_pri : ∀ r ∈ (combinedGetPass [] reqs secondary counter slug).dataRequest,
      r.priority < 10 := by
    intro r hr
    have hr2 := hperm.mem_iff.mp hr
    obtain ⟨r0, hr0, rfl⟩ := List.mem_map.mp hr2
    rw [requestWithDateRange_priority]
    exact hpri r0 hr0
  have hnotdef : ∀ r ∈ (combinedGetPass [] reqs secondary counter slug).dataRequest,
      deferCond secondary
        ((combinedGetPass [] reqs secondary counter slug).dataRequest.any
          (fun r => decide (r.priority < 10))) r = false := by
    intro r hr
    unfold deferCond
    have : decide ((10 : Int) ≤ r.priority) = false := by
      simp only [decide_eq_false_iff_not, not_le]
      exact hmem_pri r hr
    rw [this]
    simp
  have hDkeys : ((combinedGetPass [] reqs secondary counter slug).dataRequest.map
      keyOf).Pairwise (· ≠ ·) :=
    ((hperm.map keyOf).pairwise_iff (fun hxy => Ne.symm hxy)).mpr hkeys
  have htoReq : (combinedGetPass [] reqs secondary counter slug).toRequest =
      (combinedGetPass [] reqs secondary counter slug).dataRequest := by
    rw [htr, buildQueuesGo_toReq]
    simp only [List.map_nil, List.nil_append]
    exact toReqSpec_eq_self _ _ _ _ hnotdef hDkeys (fun r _ => List.not_mem_nil _)
  have hdef2 : (combinedGetPass [] reqs secondary counter slug).deferred = [] := by
    rw [hdef, buildQueuesGo_deferred]
    simp only [List.nil_append, List.filter_eq_nil_iff]
    intro x hx
    rw [hnotdef x hx]
    simp
  refine ⟨hD, htoReq, hdef2, ?_, ?_⟩
  · rw [hch, htoReq]
  · rw [hrem, htoReq, hdef2, List.append_nil]

theorem passCore_net (cacheHits : List (Request × Value))
    (dataRequest deferred toRequest : List Request) (km : KeyMap) (counter : Nat) :
    (¬((passCore cacheHits dataRequest deferred toRequest km counter).chunk = [] ∧
        (passCore cacheHits dataRequest deferred toRequest km counter).remaining = []) →
      (passCore cacheHits dataRequest deferred toRequest km counter).networkCall = true ∧
      (passCore cacheHits dataRequest deferred toRequest km counter).scheduledRecursion =
        (!(passCore cacheHits dataRequest deferred toRequest km counter).remaining.isEmpty
          && decide (0 < counter))) := by
  intro hcon
  obtain ⟨-, -, -, -, hch, hrem, -⟩ :=
    passCore_proj cacheHits dataRequest deferred toRequest km counter
  obtain ⟨-, hc2⟩ := passCore_sched_spec cacheHits dataRequest deferred toRequest km counter
  have hcon2 : ¬(toRequest.take maxDatapointsPerRequest = [] ∧
      toRequest.drop maxDatapointsPerRequest ++ deferred = []) := by
    intro hc
    exact hcon ⟨by rw [hch]; exact hc.1, by rw [hrem]; exact hc.2⟩
  obtain ⟨hn, -, hs, -, -⟩ := hc2 hcon2
  refine ⟨hn, ?_⟩
  rw [hs, hrem]

/-- The branch-dependent fields of a pass, stated on `combinedGetPass`. -/
theorem combinedGetPass_sched_spec (cache : Cache) (reqs : List Request)
    (secondary : Bool) (counter : Nat) (slug : String) :
    (¬((combinedGetPass cache reqs secondary counter slug).chunk = [] ∧
        (combinedGetPass cache reqs secondary counter slug).remaining = []) →
      (combinedGetPass cache reqs secondary counter slug).networkCall = true ∧
      (combinedGetPass cache reqs secondary counter slug).scheduledRecursion =
        (!(combinedGetPass cache reqs secondary counter slug).remaining.isEmpty
          && decide (0 < counter))) := by
  unfold combinedGetPass
  exact passCore_net _ _ _ _ _ _

theorem combinedGetPass_retry (cache : Cache) (reqs : List Request) (secondary : Bool)
    (counter : Nat) (slug : String) :
    ((combinedGetPass cache reqs secondary counter slug).remaining ≠ [] → 0 < counter →
      (combinedGetPass cache reqs secondary counter slug).scheduledRecursion = true ∧
      (combinedGetPass cache reqs secondary counter slug).recursionDelayMs = some 50 ∧
      (combinedGetPass cache reqs secondary counter slug).counter = counter - 1) ∧
    ((combinedGetPass cache reqs secondary counter slug).remaining ≠ [] → counter = 0 →
      (combinedGetPass cache reqs secondary counter slug).scheduledRecursion = false ∧
      (combinedGetPass cache reqs secondary counter slug).counter = initialMaxRequests) ∧
    ((combinedGetPass cache reqs secondary counter slug).remaining = [] →
      (combinedGetPass cache reqs secondary counter slug).chunk ≠ [] →
      (combinedGetPass cache reqs secondary counter slug).scheduledRecursion = false ∧
      (combinedGetPass cache reqs secondary counter slug).counter = initialMaxRequests) := by
  unfold combinedGetPass
  exact passCore_retry _ _ _ _ _ _

/-- C5: chunked network rounds on a fresh cache with unique high-priority
requests. With at most 10 such requests (and at least one), exactly one
network call is issued, containing all of them (the sorted normalized list);
with exactly 15, exactly two network calls are issued, of 10 and then the
remaining 5 requests, together covering every request. -/
theorem c5_chunk_rounds (slug : String) (reqs : List Request)
    (hph : slug ≠ "prev-date-range-placeholder")
    (hdrq : ∀ r ∈ reqs, r.data.dateRange ≠ some "prev-date-range-placeholder")
    (hkeys : ((reqs.map (fun r => requestWithDateRange r slug)).map keyOf).Pairwise (· ≠ ·))
    (hpri : ∀ r ∈ reqs, r.priority < 10) :
    (reqs ≠ [] → reqs.length ≤ 10 →
      combinedGetRounds [] slug reqs false 10 =
        [List.insertionSort (fun a b => a.priority ≤ b.priority)
          (reqs.map (fun r => requestWithDateRange r slug))] ∧
      (combinedGetRounds [] slug reqs false 10).map List.length = [reqs.length] ∧
      ∀ r ∈ reqs, requestWithDateRange r slug ∈
        (combinedGetRounds [] slug reqs false 10).flatten) ∧
    (reqs.length = 15 →
      (combinedGetRounds [] slug reqs false 10).map List.length = [10, 5] ∧
      ∀ r ∈ reqs, requestWithDateRange r slug ∈
        (combinedGetRounds [] slug reqs false 10).flatten) := by
  have hmax : maxDatapointsPerRequest = 10 := rfl
  obtain ⟨hD, htr, hdef, hch, hrem⟩ := pass_simple slug reqs false 10 hkeys hpri
  have hperm : List.Perm
      (combinedGetPass [] reqs false 10 slug).dataRequest
      (reqs.map (fun r => requestWithDateRange r slug)) := by
    rw [hD]
    exact List.perm_insertionSort _ _
  have hlenD : (combinedGetPass [] reqs false 10 slug).dataRequest.length = reqs.length := by
    rw [hperm.length_eq, List.length_map]
  constructor
  · -- at most ten requests: a single network call carries the whole sorted list
    intro h0 hle
    have hchunk : (combinedGetPass [] reqs false 10 slug).chunk =
        (combinedGetPass [] reqs false 10 slug).dataRequest := by
      rw [hch]
      exact List.take_of_length_le (by rw [hlenD, hmax]; exact hle)
    have hrem0 : (combinedGetPass [] reqs false 10 slug).remaining = [] := by
      rw [hrem]
      exact List.drop_eq_nil_of_le (by rw [hlenD, hmax]; exact hle)
    have hDne : (combinedGetPass [] reqs false 10 slug).dataRequest ≠ [] := by
      intro hc
      rw [hc] at hlenD
      exact h0 (List.eq_nil_of_length_eq_zero hlenD.symm)
    obtain ⟨hnet, hsched⟩ := combinedGetPass_sched_spec [] reqs false 10 slug
      (fun hc => hDne (by rw [← hchunk]; exact hc.1))
    have hsched2 : (combinedGetPass [] reqs false 10 slug).scheduledRecursion = false := by
      rw [hsched, hrem0]
      rfl
    have hrounds : combinedGetRounds [] slug reqs false 10 =
        [(combinedGetPass [] reqs false 10 slug).chunk] := by
      rw [combinedGetRounds_eq]
      simp only [hnet, hsched2, if_true, Bool.false_eq_true, if_false]
    rw [hrounds, hchunk, hD]
    refine ⟨rfl, ?_, ?_⟩
    · rw [← hD, List.map_cons, List.map_nil, hlenD]
    · intro r hr
      have : requestWithDateRange r slug ∈
          (combinedGetPass [] reqs false 10 slug).dataRequest :=
        hperm.mem_iff.mpr (List.mem_map_of_mem _ hr)
      rw [hD] at this
      simpa using this
  · -- fifteen requests: two network calls of ten and five
    intro h15
    have hlen15 : (combinedGetPass [] reqs false 10 slug).dataRequest.length = 15 := by
      rw [hlenD, h15]
    have hremlen : (combinedGetPass [] reqs false 10 slug).remaining.length = 5 := by
      rw [hrem, List.length_drop, hlen15, hmax]
    have hchlen : (combinedGetPass [] reqs false 10 slug).chunk.length = 10 := by
      rw [hch, List.length_take, hlen15, hmax]
      exact inf_eq_left.mpr (by omega)
    have hchne : (combinedGetPass [] reqs false 10 slug).chunk ≠ [] := by
      intro hc
      rw [hc] at hchlen
      cases hchlen
    have hremne : (combinedGetPass [] reqs false 10 slug).remaining ≠ [] := by
      intro hc
      rw [hc] at hremlen
      cases hremlen
    obtain ⟨hnet, -⟩ := combinedGetPass_sched_spec [] reqs false 10 slug
      (fun hc => hchne hc.1)
    obtain ⟨hret, -, -⟩ := combinedGetPass_retry [] reqs false 10 slug
    obtain ⟨hsched, -, hcnt⟩ := hret hremne (by omega)
    have hrounds1 : combinedGetRounds [] slug reqs false 10 =
        (combinedGetPass [] reqs false 10 slug).chunk ::
          combinedGetRounds [] slug (combinedGetPass [] reqs false 10 slug).remaining
            true ((combinedGetPass [] reqs false 10 slug).counter) := by
      rw [combinedGetRounds_eq]
      simp only [hnet, hsched, if_true]
    -- the second round
    have hmemD : ∀ r' ∈ (combinedGetPass [] reqs false 10 slug).remaining,
        r' ∈ reqs.map (fun r => requestWithDateRange r slug) := by
      intro r' hr'
      rw [hrem] at hr'
      exact hperm.mem_iff.mp (List.drop_subset _ _ hr')
    have hidem : ∀ r' ∈ (combinedGetPass [] reqs false 10 slug).remaining,
        requestWithDateRange r' slug = r' := by
      intro r' hr'
      obtain ⟨r0, hr0, rfl⟩ := List.mem_map.mp (hmemD r' hr')
      exact requestWithDateRange_idem r0 slug (hdrq r0 hr0) hph
    have hmap2 : (combinedGetPass [] reqs false 10 slug).remaining.map
        (fun r => requestWithDateRange r slug) =
        (combinedGetPass [] reqs false 10 slug).remaining :=
      map_id_of _ _ hidem
    have hDkeys : ((combinedGetPass [] reqs false 10 slug).dataRequest.map keyOf).Pairwise
        (· ≠ ·) :=
      ((hperm.map keyOf).pairwise_iff (fun hxy => Ne.symm hxy)).mpr hkeys
    have hkeys2 : (((combinedGetPass [] reqs false 10 slug).remaining.map
        (fun r => requestWithDateRange r slug)).map keyOf).Pairwise (· ≠ ·) := by
      rw [hmap2]
      refine List.Pairwise.sublist ?_ hDkeys
      rw [hrem]
      exact (List.drop_sublist _ _).map keyOf
    have hpri2 : ∀ r' ∈ (combinedGetPass [] reqs false 10 slug).remaining,
        r'.priority < 10 := by
      intro r' hr'
      obtain ⟨r0, hr0, rfl⟩ := List.mem_map.mp (hmemD r' hr')
      rw [requestWithDateRange_priority]
      exact hpri r0 hr0
    obtain ⟨hD2, htr2, hdef2, hch2, hrem2⟩ := pass_simple slug
      (combinedGetPass [] reqs false 10 slug).remaining true 9 hkeys2 hpri2
    have hperm2 : List.Perm
        (combinedGetPass [] (combinedGetPass [] reqs false 10 slug).remaining
          true 9 slug).dataRequest
        (combinedGetPass [] reqs false 10 slug).remaining := by
      rw [hD2, hmap2]
      exact List.perm_insertionSort _ _
    have hlenD2 : (combinedGetPass [] (combinedGetPass [] reqs false 10 slug).remaining
        true 9 slug).dataRequest.length = 5 := by
      rw [hperm2.length_eq, hremlen]
    have hchunk2 : (combinedGetPass [] (combinedGetPass [] reqs false 10 slug).remaining
        true 9 slug).chunk =
        (combinedGetPass [] (combinedGetPass [] reqs false 10 slug).remaining
          true 9 slug).dataRequest := by
      rw [hch2]
      exact List.take_of_length_le (by rw [hlenD2, hmax]; omega)
    have hrem02 : (combinedGetPass [] (combinedGetPass [] reqs false 10 slug).remaining
        true 9 slug).remaining = [] := by
      rw [hrem2]
      exact List.drop_eq_nil_of_le (by rw [hlenD2, hmax]; omega)
    have hD2ne : (combinedGetPass [] (combinedGetPass [] reqs false 10 slug).remaining
        true 9 slug).chunk ≠ [] := by
      rw [hchunk2]
      intro hc
      rw [hc] at hlenD2
      cases hlenD2
    obtain ⟨hnet2, hsched2⟩ := combinedGetPass_sched_spec []
      (combinedGetPass [] reqs false 10 slug).remaining true 9 slug
      (fun hc => hD2ne hc.1)
    have hsched2f : (combinedGetPass [] (combinedGetPass [] reqs false 10 slug).remaining
        true 9 slug).scheduledRecursion = false := by
      rw [hsched2, hrem02]
      rfl
    have hrounds2 : combinedGetRounds [] slug
        (combinedGetPass [] reqs false 10 slug).remaining true 9 =
        [(combinedGetPass [] (combinedGetPass [] reqs false 10 slug).remaining
          true 9 slug).chunk] := by
      rw [combinedGetRounds_eq]
      simp only [hnet2, hsched2f, if_true, Bool.false_eq_true, if_false]
    rw [hrounds1, hcnt]
    have h9 : (10 : Nat) - 1 = 9 := rfl
    rw [h9, hrounds2]
    constructor
    · simp only [List.map_cons, List.map_nil, hchlen, hchunk2]
      rw [hlenD2]
    · intro r hr
      have hmemDr : requestWithDateRange r slug ∈
          (combinedGetPass [] reqs false 10 slug).dataRequest :=
        hperm.mem_iff.mpr (List.mem_map_of_mem _ hr)
      have hsplit : (combinedGetPass [] reqs false 10 slug).chunk ++
          (combinedGetPass [] reqs false 10 slug).remaining =
          (combinedGetPass [] reqs false 10 slug).dataRequest := by
        rw [hch, hrem]
        exact List.take_append_drop _ _
      rw [← hsplit] at hmemDr
      have hflat : [(combinedGetPass [] reqs false 10 slug).chunk,
          (combinedGetPass [] (combinedGetPass [] reqs false 10 slug).remaining
            true 9 slug).chunk].flatten =
          (combinedGetPass [] reqs false 10 slug).chunk ++
          (combinedGetPass [] (combinedGetPass [] reqs false 10 slug).remaining
            true 9 slug).chunk := by
        simp
      rw [hflat]
      rcases List.mem_append.mp hmemDr with hl | hr2
      · exact List.mem_append_left _ hl
      · refine List.mem_append_right _ ?_
        rw [hchunk2]
        exact hperm2.mem_iff.mpr hr2

theorem c5_witness :
    (combinedGetRounds [] "last-28-days" ((List.range 3).map c6reqAt) false 10).map
      List.length = [3] ∧
    (combinedGetRounds [] "last-28-days" ((List.range 15).map c6reqAt) false 10).map
      List.length = [10, 5] := by
  constructor
  · have h := ((c5_chunk_rounds "last-28-days" ((List.range 3).map c6reqAt)
      (by decide) (by decide) (by decide) (by decide)).1 (by decide) (by decide)).2.1
    simpa using h
  · exact ((c5_chunk_rounds "last-28-days" ((List.range 15).map c6reqAt)
      (by decide) (by decide) (by decide) (by decide)).2 (by decide)).1

/-! ### Run characterization of the response handler -/

/-- The per-key conditions under which processing one response key does not
throw: an error key's array subscript names exactly one valid request, every
index recorded for a non-error key is valid, and no reached callback throws. -/
def keyOkB (ctx : ProcCtx) (k : String) (r : WireResult) : Bool :=
  match lookupKM ctx.keyIndexesMap k with
  | none => true
  | some ixs =>
    (!isWPError r || !(jsIndexByList ctx.dataRequest ixs).isNone) &&
    (isWPError r || ixs.all (fun i => !(ctx.dataRequest.get? i).isNone)) &&
    ixs.all (fun i => match ctx.dataRequest.get? i with
      | some req => !req.cbThrows
      | none => true)

def handleFilters : WireResult → List FilterReg
  | .err e => handleWPErrorFilters e
  | .ok _ => []

/-- The effects contributed by one `(key, result)` pair of the response when
processing it does not throw. -/
def stepDelta (ctx : ProcCtx) (k : String) (r : WireResult) : ProcState :=
  match lookupKM ctx.keyIndexesMap k with
  | none => { emptyProc with logs := ["data_error unknown response key " ++ k] }
  | some ixs =>
    { cacheWrites := if isWPError r then [] else
        ixs.filterMap (fun i => (ctx.dataRequest.get? i).map (fun req => (keyOf req, r))),
      classified := if isWPError r then
          (match jsIndexByList ctx.dataRequest ixs with
           | some req => [(req.datapoint, req.rtype, req.identifier, r)]
           | none => [])
        else [],
      filters := if isWPError r then
          (match jsIndexByList ctx.dataRequest ixs with
           | some _ => handleFilters r
           | none => [])
        else [],
      resolved := ixs.filterMap (fun i => (ctx.dataRequest.get? i).map (fun req => (req.cbId, r))),
      actions := if ctx.remainingEmpty then ["api"] else [],
      logs := [] }

def bigDelta (ctx : ProcCtx) : List (String × WireResult) → ProcState
  | [] => emptyProc
  | (k, r) :: rest => appendProc (stepDelta ctx k r) (bigDelta ctx rest)

theorem appendProc_assoc (a b c : ProcState) :
    appendProc (appendProc a b) c = appendProc a (appendProc b c) := by
  simp [appendProc, List.append_assoc]

theorem appendProc_empty_left (s : ProcState) : appendProc emptyProc s = s := by
  rcases s with ⟨a, b, c, d, e, f⟩
  simp [appendProc, emptyProc]

theorem appendProc_empty_right (s : ProcState) : appendProc s emptyProc = s := by
  rcases s with ⟨a, b, c, d, e, f⟩
  simp [appendProc, emptyProc]

theorem resolveLoop_ok_run (ctx : ProcCtx) (r : WireResult) (isErr : Bool) (ixs : List Nat) :
    ∀ s : ProcState,
    (isErr = false → ∀ i ∈ ixs, ctx.dataRequest.get? i ≠ none) →
    (∀ i ∈ ixs, ∀ req, ctx.dataRequest.get? i = some req → req.cbThrows = false) →
    resolveLoop ctx s r isErr ixs = .ok
      { s with
        cacheWrites := s.cacheWrites ++ (if isErr then [] else
          ixs.filterMap (fun i => (ctx.dataRequest.get? i).map (fun req => (keyOf req, r)))),
        resolved := s.resolved ++
          ixs.filterMap (fun i => (ctx.dataRequest.get? i).map (fun req => (req.cbId, r))) } := by
  induction ixs with
  | nil =>
    intro s hv ht
    rcases s with ⟨a, b, c, d, e, f⟩
    unfold resolveLoop
    cases isErr <;> simp
  | cons i rest ih =>
    intro s hv ht
    cases hg : ctx.dataRequest.get? i with
    | none =>
      cases isErr with
      | false => exact absurd hg (hv rfl i (by simp))
      | true =>
        simp only [resolveLoop, hg]
        rw [ih s (fun hc => by cases hc)
          (fun j hj req hr => ht j (by simp [hj]) req hr)]
        have hg2 : ctx.dataRequest[i]? = none := by
          rw [← List.get?_eq_getElem?]
          exact hg
        simp [List.filterMap_cons, hg2]
    | some req =>
      have hth : req.cbThrows = false := ht i (by simp) req hg
      simp only [resolveLoop, hg, hth, Bool.false_eq_true, if_false]
      rw [ih (pushResolved (cacheStep s isErr req r) req r)
        (fun hc i2 hi2 => hv hc i2 (by simp [hi2]))
        (fun j hj req2 hr2 => ht j (by simp [hj]) req2 hr2)]
      have hg2 : ctx.dataRequest[i]? = some req := by
        rw [← List.get?_eq_getElem?]
        exact hg
      rcases s with ⟨a, b, c, d, e, f⟩
      cases isErr <;>
        simp [pushResolved, cacheStep, hg2, List.filterMap_cons, List.append_assoc]

theorem classifyStep_ok_run (ctx : ProcCtx) (s : ProcState) (r : WireResult) (ixs : List Nat)
    (hj : isWPError r = true → jsIndexByList ctx.dataRequest ixs ≠ none) :
    classifyStep ctx s r ixs = .ok { s with
      classified := s.classified ++ (if isWPError r then
          (match jsIndexByList ctx.dataRequest ixs with
           | some req => [(req.datapoint, req.rtype, req.identifier, r)]
           | none => [])
        else []),
      filters := s.filters ++ (if isWPError r then
          (match jsIndexByList ctx.dataRequest ixs with
           | some _ => handleFilters r
           | none => [])
        else []) } := by
  unfold classifyStep
  cases hisErr : isWPError r with
  | false =>
    rcases s with ⟨a, b, c, d, e, f⟩
    simp
  | true =>
    cases hJ : jsIndexByList ctx.dataRequest ixs with
    | none => exact absurd hJ (hj hisErr)
    | some req =>
      rcases r with v | e
      · cases hisErr
      · simp [hJ, handleFilters]

theorem resolveLoop_ok_run' (ctx : ProcCtx) (r : WireResult) (isErr : Bool) (ixs : List Nat)
    (hv : isErr = false → ∀ i ∈ ixs, ctx.dataRequest.get? i ≠ none)
    (ht : ∀ i ∈ ixs, ∀ req, ctx.dataRequest.get? i = some req → req.cbThrows = false)
    (s : ProcState) :
    resolveLoop ctx s r isErr ixs = .ok
      { s with
        cacheWrites := s.cacheWrites ++ (if isErr then [] else
          ixs.filterMap (fun i => (ctx.dataRequest.get? i).map (fun req => (keyOf req, r)))),
        resolved := s.resolved ++
          ixs.filterMap (fun i => (ctx.dataRequest.get? i).map (fun req => (req.cbId, r))) } :=
  resolveLoop_ok_run ctx r isErr ixs s hv ht

theorem processKey_ok_run (ctx : ProcCtx) (s : ProcState) (k : String) (r : WireResult)
    (hok : keyOkB ctx k r = true) :
    processKey ctx s k r = .ok (appendProc s (stepDelta ctx k r)) := by
  cases hkm : lookupKM ctx.keyIndexesMap k with
  | none =>
    simp only [processKey, stepDelta, hkm]
    rcases s with ⟨a, b, c, d, e, f⟩
    simp [appendProc, emptyProc]
  | some ixs =>
    unfold keyOkB at hok
    rw [hkm] at hok
    simp only [Bool.and_eq_true, Bool.or_eq_true, Bool.not_eq_true', List.all_eq_true] at hok
    obtain ⟨⟨hA, hB⟩, hC⟩ := hok
    have hjj : isWPError r = true → jsIndexByList ctx.dataRequest ixs ≠ none := by
      intro hErr hc
      rcases hA with hA | hA
      · rw [hErr] at hA
        cases hA
      · rw [hc] at hA
        cases hA
    have hv : isWPError r = false → ∀ i ∈ ixs, ctx.dataRequest.get? i ≠ none := by
      intro hErr i hi hc
      rcases hB with hB | hB
      · rw [hErr] at hB
        cases hB
      · have := hB i hi
        rw [hc] at this
        cases this
    have ht : ∀ i ∈ ixs, ∀ req, ctx.dataRequest.get? i = some req → req.cbThrows = false := by
      intro i hi req hr
      have := hC i hi
      rw [hr] at this
      simpa using this
    simp only [processKey, stepDelta, hkm]
    simp only [classifyStep_ok_run ctx s r ixs hjj]
    simp only [resolveLoop_ok_run' ctx r (isWPError r) ixs hv ht]
    rcases s with ⟨a, b, c, d, e, f⟩
    cases hre : ctx.remainingEmpty <;>
      cases hErr : isWPError r <;>
        simp [appendProc]

theorem processResultsAux_run (ctx : ProcCtx) :
    ∀ (rs : List (String × WireResult)) (s : ProcState),
    (∀ kr ∈ rs, keyOkB ctx kr.1 kr.2 = true) →
    processResultsAux ctx rs s = .ok (appendProc s (bigDelta ctx rs)) := by
  intro rs
  induction rs with
  | nil =>
    intro s h
    simp [processResultsAux, bigDelta, appendProc_empty_right]
  | cons kr rest ih =>
    intro s h
    obtain ⟨k0, r0⟩ := kr
    simp only [processResultsAux, bigDelta]
    simp only [processKey_ok_run ctx s k0 r0 (h (k0, r0) (by simp))]
    rw [ih _ (fun kr2 hkr => h kr2 (by simp [hkr]))]
    rw [appendProc_assoc]

/-- When every response key satisfies the no-throw conditions, the handler
runs to completion and its effects are exactly the concatenation of the
per-key contributions. -/
theorem processResults_run (ctx : ProcCtx) (results : List (String × WireResult))
    (h : ∀ kr ∈ results, keyOkB ctx kr.1 kr.2 = true) :
    processResults ctx results = (bigDelta ctx results, false) := by
  unfold processResults
  rw [processResultsAux_run ctx results emptyProc h, appendProc_empty_left]

theorem bigDelta_classified (ctx : ProcCtx) : ∀ rs, (bigDelta ctx rs).classified =
    (rs.map (fun kr => (stepDelta ctx kr.1 kr.2).classified)).flatten := by
  intro rs
  induction rs with
  | nil => rfl
  | cons kr rest ih =>
    obtain ⟨k0, r0⟩ := kr
    simp [bigDelta, appendProc, ih]

theorem bigDelta_cacheWrites (ctx : ProcCtx) : ∀ rs, (bigDelta ctx rs).cacheWrites =
    (rs.map (fun kr => (stepDelta ctx kr.1 kr.2).cacheWrites)).flatten := by
  intro rs
  induction rs with
  | nil => rfl
  | cons kr rest ih =>
    obtain ⟨k0, r0⟩ := kr
    simp [bigDelta, appendProc, ih]

theorem bigDelta_resolved (ctx : ProcCtx) : ∀ rs, (bigDelta ctx rs).resolved =
    (rs.map (fun kr => (stepDelta ctx kr.1 kr.2).resolved)).flatten := by
  intro rs
  induction rs with
  | nil => rfl
  | cons kr rest ih =>
    obtain ⟨k0, r0⟩ := kr
    simp [bigDelta, appendProc, ih]

theorem bigDelta_filters (ctx : ProcCtx) : ∀ rs, (bigDelta ctx rs).filters =
    (rs.map (fun kr => (stepDelta ctx kr.1 kr.2).filters)).flatten := by
  intro rs
  induction rs with
  | nil => rfl
  | cons kr rest ih =>
    obtain ⟨k0, r0⟩ := kr
    simp [bigDelta, appendProc, ih]

theorem jsIndexByList_some (l : List Request) (ixs : List Nat) (req : Request)
    (h : jsIndexByList l ixs = some req) : ∃ i, ixs = [i] ∧ l.get? i = some req := by
  rcases ixs with - | ⟨i, - | ⟨j, rest⟩⟩
  · cases h
  · exact ⟨i, rfl, h⟩
  · cases h

theorem mem_unique_of_pairwise_keys {α : Type} (l : List (String × α)) (k : String) (a b : α)
    (hdist : (l.map Prod.fst).Pairwise (· ≠ ·))
    (ha : (k, a) ∈ l) (hb : (k, b) ∈ l) : a = b := by
  induction l with
  | nil => cases ha
  | cons p rest ih =>
    simp only [List.map_cons, List.pairwise_cons] at hdist
    rcases List.mem_cons.mp ha with ha1 | ha2
    · rcases List.mem_cons.mp hb with hb1 | hb2
      · rw [← ha1] at hb1
        injection hb1 with h1 h2
        exact h2.symm
      · exfalso
        have hk : p.1 = k := by rw [← ha1]
        have : k ∈ rest.map Prod.fst := by
          refine List.mem_map.mpr ⟨(k, b), hb2, rfl⟩
        exact hdist.1 k this (hk ▸ rfl)
    · rcases List.mem_cons.mp hb with hb1 | hb2
      · exfalso
        have hk : p.1 = k := by rw [← hb1]
        have : k ∈ rest.map Prod.fst := by
          refine List.mem_map.mpr ⟨(k, a), ha2, rfl⟩
        exact hdist.1 k this (hk ▸ rfl)
      · exact ih hdist.2 ha2 hb2

/-- Decidable key-consistency: every valid recorded index of a key names a
request whose cache key is that key (true of every real `keyIndexesMap`,
which is built from `request.key`). -/
def keyConsB (ctx : ProcCtx) (k : String) : Bool :=
  match lookupKM ctx.keyIndexesMap k with
  | none => true
  | some ixs => ixs.all (fun i => match ctx.dataRequest.get? i with
      | some req => keyOf req == k
      | none => true)

theorem keyConsB_spec (ctx : ProcCtx) (k : String) (h : keyConsB ctx k = true) :
    ∀ ixs, lookupKM ctx.keyIndexesMap k = some ixs →
      ∀ i ∈ ixs, ∀ req, ctx.dataRequest.get? i = some req → keyOf req = k := by
  intro ixs hkm i hi req hg
  simp only [keyConsB, hkm, List.all_eq_true] at h
  have := h i hi
  rw [hg] at this
  simpa using this

theorem stepDelta_err_fields (ctx : ProcCtx) (k : String) (e : WPError) (i : Nat)
    (req : Request) (hkm : lookupKM ctx.keyIndexesMap k = some [i])
    (hg : ctx.dataRequest.get? i = some req) :
    (stepDelta ctx k (WireResult.err e)).classified =
      [(req.datapoint, req.rtype, req.identifier, WireResult.err e)] ∧
    (stepDelta ctx k (WireResult.err e)).cacheWrites = [] ∧
    (stepDelta ctx k (WireResult.err e)).resolved = [(req.cbId, WireResult.err e)] ∧
    (stepDelta ctx k (WireResult.err e)).filters = handleWPErrorFilters e := by
  have hJ : jsIndexByList ctx.dataRequest [i] = some req := hg
  have hg2 : ctx.dataRequest[i]? = some req := by
    rw [← List.get?_eq_getElem?]
    exact hg
  refine ⟨?_, ?_, ?_, ?_⟩ <;>
    simp [stepDelta, hkm, hJ, isWPError, handleFilters, hg, hg2]

theorem stepDelta_cacheWrites_mem (ctx : ProcCtx) (k' : String) (r' : WireResult)
    (p : String × WireResult) (hp : p ∈ (stepDelta ctx k' r').cacheWrites) :
    ∃ ixs', lookupKM ctx.keyIndexesMap k' = some ixs' ∧ isWPError r' = false ∧
      ∃ i' req', i' ∈ ixs' ∧ ctx.dataRequest.get? i' = some req' ∧
        p = (keyOf req', r') := by
  cases hkm : lookupKM ctx.keyIndexesMap k' with
  | none => simp [stepDelta, hkm, emptyProc] at hp
  | some ixs' =>
    simp only [stepDelta, hkm] at hp
    cases hErr : isWPError r' with
    | true =>
      rw [hErr] at hp
      simp at hp
    | false =>
      rw [hErr] at hp
      simp only [Bool.false_eq_true, if_false] at hp
      obtain ⟨i', hi', hm⟩ := List.mem_filterMap.mp hp
      obtain ⟨req', hreq', hpe⟩ := Option.map_eq_some'.mp hm
      exact ⟨ixs', rfl, rfl, i', req', hi', hreq', hpe.symm⟩

/-- C1 (amended): for every batch response key whose per-key result is a
service-side WP error — under the conditions in which the handler does not
throw (the error key maps to exactly one recorded request, recorded indexes
are valid, no callback throws), with pairwise-distinct response keys
matching the recorded requests' cache keys — `combinedGet` invokes the Error
Classifier (`handleWPError` receives the request's datapoint, type and
identifier together with the error), does NOT write the result to the Cache
Store, and — contrary to the original claim — DOES invoke the callback of
the DataRequest recorded for that key, passing it the error result. -/
theorem c1_per_key_error (ctx : ProcCtx) (results : List (String × WireResult))
    (hok : ∀ kr ∈ results, keyOkB ctx kr.1 kr.2 = true)
    (hdist : (results.map Prod.fst).Pairwise (· ≠ ·))
    (hcons : ∀ kr ∈ results, keyConsB ctx kr.1 = true) :
    (processResults ctx results).2 = false ∧
    ∀ k e ixs, (k, WireResult.err e) ∈ results →
      lookupKM ctx.keyIndexesMap k = some ixs →
      ∃ i req, ixs = [i] ∧ ctx.dataRequest.get? i = some req ∧
        (req.datapoint, req.rtype, req.identifier, WireResult.err e) ∈
          (processResults ctx results).1.classified ∧
        (∀ v, (keyOf req, v) ∉ (processResults ctx results).1.cacheWrites) ∧
        (req.cbId, WireResult.err e) ∈ (processResults ctx results).1.resolved := by
  rw [processResults_run ctx results hok]
  refine ⟨rfl, ?_⟩
  intro k e ixs hmem hkm
  have hokk := hok (k, WireResult.err e) hmem
  unfold keyOkB at hokk
  rw [hkm] at hokk
  simp only [Bool.and_eq_true, Bool.or_eq_true, Bool.not_eq_true', List.all_eq_true] at hokk
  obtain ⟨⟨hA, -⟩, -⟩ := hokk
  have hJne : jsIndexByList ctx.dataRequest ixs ≠ none := by
    intro hc
    rcases hA with hA | hA
    · cases hA
    · rw [hc] at hA
      cases hA
  cases hJ : jsIndexByList ctx.dataRequest ixs with
  | none => exact absurd hJ hJne
  | some req =>
    obtain ⟨i, rfl, hg⟩ := jsIndexByList_some _ _ _ hJ
    obtain ⟨hcl, -, hres, -⟩ := stepDelta_err_fields ctx k e i req hkm hg
    refine ⟨i, req, rfl, hg, ?_, ?_, ?_⟩
    · rw [bigDelta_classified]
      refine List.mem_flatten.mpr ⟨(stepDelta ctx k (WireResult.err e)).classified,
        List.mem_map_of_mem _ hmem, ?_⟩
      rw [hcl]
      simp
    · intro v hv
      rw [bigDelta_cacheWrites] at hv
      obtain ⟨l, hl, hvin⟩ := List.mem_flatten.mp hv
      obtain ⟨kr', hkr', hle⟩ := List.mem_map.mp hl
      rw [← hle] at hvin
      obtain ⟨ixs', hkm', hErr', i', req', hi', hg', heq⟩ :=
        stepDelta_cacheWrites_mem ctx kr'.1 kr'.2 _ hvin
      have hk1 : keyOf req' = kr'.1 :=
        keyConsB_spec ctx kr'.1 (hcons kr' hkr') ixs' hkm' i' hi' req' hg'
      have hk0 : keyOf req = k :=
        keyConsB_spec ctx k (hcons (k, WireResult.err e) hmem) [i] hkm i (by simp) req hg
      have hkk : keyOf req = keyOf req' := by injection heq
      have hkeq : kr'.1 = k := by rw [← hk1, ← hkk, hk0]
      have hmem' : (k, kr'.2) ∈ results := by
        rw [← hkeq, Prod.mk.eta]
        exact hkr'
      have := mem_unique_of_pairwise_keys results k kr'.2 (WireResult.err e) hdist hmem' hmem
      rw [this] at hErr'
      cases hErr'
    · rw [bigDelta_resolved]
      refine List.mem_flatten.mpr ⟨(stepDelta ctx k (WireResult.err e)).resolved,
        List.mem_map_of_mem _ hmem, ?_⟩
      rw [hres]
      simp

/-- C2 (amended): per-key failures are isolated as long as no exception is
thrown while processing the response: under the no-throw conditions (each
error key maps to exactly one valid recorded request and no callback
throws), every request recorded for any response key — success or error — is
resolved, so one bad datapoint does not block its co-batched siblings. A
callback that throws during Resolver Dispatch, however, aborts the
processing of all subsequent keys of the same response (see the
counterexample), as does an error result for a key shared by several
requests. -/
theorem c2_per_key_isolation (ctx : ProcCtx) (results : List (String × WireResult))
    (hok : ∀ kr ∈ results, keyOkB ctx kr.1 kr.2 = true) :
    (processResults ctx results).2 = false ∧
    ∀ k r ixs, (k, r) ∈ results → lookupKM ctx.keyIndexesMap k = some ixs →
      ∀ i ∈ ixs, ∀ req, ctx.dataRequest.get? i = some req →
        (req.cbId, r) ∈ (processResults ctx results).1.resolved := by
  rw [processResults_run ctx results hok]
  refine ⟨rfl, ?_⟩
  intro k r ixs hmem hkm i hi req hg
  rw [bigDelta_resolved]
  refine List.mem_flatten.mpr ⟨(stepDelta ctx k r).resolved, List.mem_map_of_mem _ hmem, ?_⟩
  simp only [stepDelta, hkm]
  refine List.mem_filterMap.mpr ⟨i, hi, ?_⟩
  rw [hg]
  rfl

def cexErrForbidden : WPError :=
  { code := "forbidden", message := "no access",
    data := some { status := 403, reason := some "forbidden", reconnectURL := none } }

/-- C1 counterexample: one request, one response key carrying a WP error.
`handleWPError` runs and nothing is cached, but the request's callback IS
invoked with the error result (`this.resolve( request, result )` runs
whether or not `isError` holds), refuting "never invokes the callback of any
DataRequest sharing that key". -/
theorem c1_counterexample :
    (processResults c7ctx [(keyOf c6req, WireResult.err cexErrForbidden)]).1.resolved =
      [(0, WireResult.err cexErrForbidden)] ∧
    (processResults c7ctx [(keyOf c6req, WireResult.err cexErrForbidden)]).1.cacheWrites
      = [] ∧
    (processResults c7ctx [(keyOf c6req, WireResult.err cexErrForbidden)]).1.classified.length
      = 1 := by
  refine ⟨?_, ?_, ?_⟩ <;> decide

theorem c1_witness :
    (processResults c7ctx [(keyOf c6req, WireResult.err cexErrForbidden)]).2 = false ∧
    ∃ i req, ([0] : List Nat) = [i] ∧ c7ctx.dataRequest.get? i = some req ∧
      (req.datapoint, req.rtype, req.identifier, WireResult.err cexErrForbidden) ∈
        (processResults c7ctx [(keyOf c6req, WireResult.err cexErrForbidden)]).1.classified ∧
      (∀ v, (keyOf req, v) ∉
        (processResults c7ctx [(keyOf c6req, WireResult.err cexErrForbidden)]).1.cacheWrites) ∧
      (req.cbId, WireResult.err cexErrForbidden) ∈
        (processResults c7ctx [(keyOf c6req, WireResult.err cexErrForbidden)]).1.resolved := by
  obtain ⟨h1, h2⟩ := c1_per_key_error c7ctx [(keyOf c6req, WireResult.err cexErrForbidden)]
    (by decide) (by decide) (by decide)
  exact ⟨h1, h2 (keyOf c6req) cexErrForbidden [0] (by decide) (by decide)⟩

def c2reqThrow : Request := { c6req with cbThrows := true }

def c2reqB : Request := { c6req with identifier := "analytics", cbId := 1 }

def c2ctx : ProcCtx :=
  { dataRequest := [c2reqThrow, c2reqB],
    keyIndexesMap := [(keyOf c2reqThrow, [0]), (keyOf c2reqB, [1])],
    remainingEmpty := true }

/-- C2 counterexample: two successful response keys; the first key's callback
throws during Resolver Dispatch. The exception propagates out of the `each`
loop into `.catch`, so the second (sibling) key is never resolved — refuting
the claim that a throwing callback does not prevent sibling keys in the same
response from being resolved. -/
theorem c2_counterexample :
    (processResults c2ctx
      [(keyOf c2reqThrow, WireResult.ok 5), (keyOf c2reqB, WireResult.ok 6)]).2 = true ∧
    (processResults c2ctx
      [(keyOf c2reqThrow, WireResult.ok 5), (keyOf c2reqB, WireResult.ok 6)]).1.resolved =
      [(0, WireResult.ok 5)] ∧
    (1, WireResult.ok 6) ∉ (processResults c2ctx
      [(keyOf c2reqThrow, WireResult.ok 5), (keyOf c2reqB, WireResult.ok 6)]).1.resolved := by
  refine ⟨?_, ?_, ?_⟩ <;> decide

def c2wctx : ProcCtx :=
  { dataRequest := [c6req, c2reqB],
    keyIndexesMap := [(keyOf c6req, [0]), (keyOf c2reqB, [1])],
    remainingEmpty := true }

theorem c2_witness :
    (processResults c2wctx
      [(keyOf c6req, WireResult.err cexErrForbidden), (keyOf c2reqB, WireResult.ok 6)]).2
      = false ∧
    (1, WireResult.ok 6) ∈ (processResults c2wctx
      [(keyOf c6req, WireResult.err cexErrForbidden),
        (keyOf c2reqB, WireResult.ok 6)]).1.resolved := by
  obtain ⟨h1, h2⟩ := c2_per_key_isolation c2wctx
    [(keyOf c6req, WireResult.err cexErrForbidden), (keyOf c2reqB, WireResult.ok 6)]
    (by decide)
  refine ⟨h1, ?_⟩
  have := h2 (keyOf c2reqB) (WireResult.ok 6) [1] (by decide) (by decide) 1 (by decide)
    c2reqB (by decide)
  exact this

/-! ### Notification registration counts (C8) -/

def countPermission (regs : List FilterReg) : Nat :=
  (regs.filter (fun f =>
    decide (f.payload = FilterPayload.notif NotifComponent.dashboardPermissionAlert))).length

/-- Whether a response entry is a known key carrying a `forbidden` WP error. -/
def forbiddenKey (ctx : ProcCtx) (kr : String × WireResult) : Bool :=
  (lookupKM ctx.keyIndexesMap kr.1).isSome &&
  (match kr.2 with
   | .err e =>
     match e.data with
     | some d => decide (d.reason = some "forbidden")
     | none => false
   | .ok _ => false)

/-- The increment carried by the first registered total-notification count
handler. -/
def firstCounterInc : List FilterReg → Nat
  | [] => 0
  | f :: rest =>
    if f.hook = "googlesitekit.TotalNotifications" then
      match f.payload with
      | .counterInc n => n
      | .notif _ => firstCounterInc rest
    else firstCounterInc rest

/-- Every count handler in the list is registered under the hook and
namespace `handleWPError` uses. -/
def counterRegsWF (regs : List FilterReg) : Bool :=
  regs.all (fun f => match f.payload with
    | .counterInc _ => decide (f.hook = "googlesitekit.TotalNotifications") &&
        decide (f.ns = "googlesitekit.AuthCountIncrease")
    | .notif _ => true)

theorem runCounterFilters_no_inc (regs : List FilterReg) (c : Nat)
    (h : ∀ f ∈ regs, ∀ n, f.payload = FilterPayload.counterInc n →
      f.hook ≠ "googlesitekit.TotalNotifications") :
    runCounterFilters regs c = c := by
  induction regs with
  | nil => simp [runCounterFilters]
  | cons f rest ih =>
    by_cases hh : f.hook = "googlesitekit.TotalNotifications"
    · cases hp : f.payload with
      | counterInc n => exact absurd hh (h f (by simp) n hp)
      | notif comp =>
        simp only [runCounterFilters, hp]
        rw [if_pos hh]
        exact ih (fun g hg n hgp => h g (by simp [hg]) n hgp)
    · simp only [runCounterFilters]
      rw [if_neg hh]
      exact ih (fun g hg n hgp => h g (by simp [hg]) n hgp)

theorem runCounterFilters_once (regs : List FilterReg) (c : Nat)
    (hwf : counterRegsWF regs = true) :
    runCounterFilters regs c = c + firstCounterInc regs := by
  induction regs generalizing c with
  | nil => simp [runCounterFilters, firstCounterInc]
  | cons f rest ih =>
    have hwfc := hwf
    simp only [counterRegsWF, List.all_cons, Bool.and_eq_true] at hwfc
    have hwf2 : counterRegsWF rest = true := hwfc.2
    by_cases hh : f.hook = "googlesitekit.TotalNotifications"
    · cases hp : f.payload with
      | counterInc n =>
        have hns : f.ns = "googlesitekit.AuthCountIncrease" := by
          have := hwfc.1
          rw [hp] at this
          simp only [Bool.and_eq_true, decide_eq_true_eq] at this
          exact this.2
        simp only [runCounterFilters, firstCounterInc, hp]
        rw [if_pos hh, if_pos hh]
        apply runCounterFilters_no_inc
        intro g hg m hgp hghook
        have hgmem := List.mem_filter.mp hg
        have hgwf := (List.all_eq_true.mp hwf2) g hgmem.1
        rw [hgp] at hgwf
        simp only [Bool.and_eq_true, decide_eq_true_eq] at hgwf
        have hpred := hgmem.2
        simp [hgwf.1, hgwf.2, hns] at hpred
      | notif comp =>
        simp only [runCounterFilters, firstCounterInc, hp]
        rw [if_pos hh, if_pos hh]
        exact ih c hwf2
    · simp only [runCounterFilters, firstCounterInc]
      rw [if_neg hh, if_neg hh]
      exact ih c hwf2

theorem countPermission_append (a b : List FilterReg) :
    countPermission (a ++ b) = countPermission a + countPermission b := by
  simp [countPermission, List.filter_append]

theorem countPermission_handleWPError (e : WPError) :
    countPermission (handleWPErrorFilters e) =
      (match e.data with
       | some d => if d.reason = some "forbidden" then 1 else 0
       | none => 0) := by
  obtain ⟨code, msg, data⟩ := e
  cases data with
  | none => rfl
  | some d =>
    by_cases hg : d.reason = none ∧ d.reconnectURL = none
    · have hf : ¬d.reason = some "forbidden" := by
        rw [hg.1]
        simp
      simp [handleWPErrorFilters, hg, countPermission, hf]
    · by_cases h2 : d.reason = some "forbidden"
      · have h1 : ¬(d.reason = some "authError" ∨ d.reason = some "insufficientPermissions") := by
          rw [h2]
          decide
        by_cases h3 : d.reconnectURL ≠ none <;>
          simp [handleWPErrorFilters, hg, h1, h2, h3, countPermission]
      · by_cases h1 : d.reason = some "authError" ∨ d.reason = some "insufficientPermissions" <;>
          by_cases h3 : d.reconnectURL ≠ none <;>
            simp [handleWPErrorFilters, hg, h1, h2, h3, countPermission]

theorem counterRegsWF_append (a b : List FilterReg) :
    counterRegsWF (a ++ b) = (counterRegsWF a && counterRegsWF b) := by
  simp [counterRegsWF, List.all_append]

theorem handleWPErrorFilters_wf (e : WPError) :
    counterRegsWF (handleWPErrorFilters e) = true := by
  obtain ⟨code, msg, data⟩ := e
  cases data with
  | none => rfl
  | some d =>
    by_cases hg : d.reason = none ∧ d.reconnectURL = none
    · simp [handleWPErrorFilters, hg, counterRegsWF]
    · by_cases h1 : d.reason = some "authError" ∨ d.reason = some "insufficientPermissions" <;>
        by_cases h2 : d.reason = some "forbidden" <;>
          by_cases h3 : d.reconnectURL ≠ none <;>
            simp [handleWPErrorFilters, hg, h1, h2, h3, counterRegsWF]

theorem stepDelta_filters_wf (ctx : ProcCtx) (k : String) (r : WireResult) :
    counterRegsWF (stepDelta ctx k r).filters = true := by
  cases hkm : lookupKM ctx.keyIndexesMap k with
  | none => simp [stepDelta, hkm, emptyProc, counterRegsWF]
  | some ixs =>
    simp only [stepDelta, hkm]
    cases hErr : isWPError r with
    | false => simp [counterRegsWF]
    | true =>
      cases hJ : jsIndexByList ctx.dataRequest ixs with
      | none => simp [hJ, counterRegsWF]
      | some req =>
        rcases r with v | e
        · cases hErr
        · simp [hJ, handleFilters, handleWPErrorFilters_wf e]

theorem bigDelta_filters_wf (ctx : ProcCtx) (rs : List (String × WireResult)) :
    counterRegsWF (bigDelta ctx rs).filters = true := by
  induction rs with
  | nil => rfl
  | cons kr rest ih =>
    obtain ⟨k0, r0⟩ := kr
    simp only [bigDelta, appendProc, counterRegsWF_append]
    rw [stepDelta_filters_wf, ih]
    rfl

theorem stepDelta_countPermission (ctx : ProcCtx) (k : String) (r : WireResult)
    (hok : keyOkB ctx k r = true) :
    countPermission (stepDelta ctx k r).filters =
      (if forbiddenKey ctx (k, r) then 1 else 0) := by
  cases hkm : lookupKM ctx.keyIndexesMap k with
  | none => simp [stepDelta, hkm, emptyProc, countPermission, forbiddenKey]
  | some ixs =>
    simp only [stepDelta, hkm]
    cases hErr : isWPError r with
    | false =>
      rcases r with v | e
      · simp [forbiddenKey, hkm, countPermission]
      · cases hErr
    | true =>
      rcases r with v | e
      · cases hErr
      · unfold keyOkB at hok
        rw [hkm] at hok
        simp only [Bool.and_eq_true, Bool.or_eq_true, Bool.not_eq_true', List.all_eq_true] at hok
        obtain ⟨⟨hA, -⟩, -⟩ := hok
        cases hJ : jsIndexByList ctx.dataRequest ixs with
        | none =>
          rcases hA with hA | hA
          · simp [isWPError] at hA
          · rw [hJ] at hA
            cases hA
        | some req =>
          simp only [hJ, isWPError, if_pos]
          simp only [handleFilters]
          rw [countPermission_handleWPError e]
          simp only [forbiddenKey, hkm, Option.isSome_some, Bool.true_and]
          cases hd : e.data with
          | none => simp
          | some d => by_cases hf : d.reason = some "forbidden" <;> simp [hf]

theorem bigDelta_countPermission (ctx : ProcCtx) (rs : List (String × WireResult))
    (hok : ∀ kr ∈ rs, keyOkB ctx kr.1 kr.2 = true) :
    countPermission (bigDelta ctx rs).filters = (rs.filter (forbiddenKey ctx)).length := by
  induction rs with
  | nil => rfl
  | cons kr rest ih =>
    obtain ⟨k0, r0⟩ := kr
    simp only [bigDelta, appendProc, countPermission_append]
    rw [stepDelta_countPermission ctx k0 r0 (hok (k0, r0) (by simp)),
      ih (fun kr2 hkr2 => hok kr2 (by simp [hkr2]))]
    by_cases hf : forbiddenKey ctx (k0, r0) = true
    · simp only [List.filter_cons, hf, if_true, List.length_cons]
      omega
    · simp only [Bool.not_eq_true] at hf
      simp [List.filter_cons, hf]

/-- C8 (amended): whenever the batch response processes without throwing
(every error key names exactly one valid recorded request and no callback
throws), every known response key carrying a `forbidden` error contributes
exactly one PermissionError (DashboardPermissionAlert) filter registration —
so three co-batched requests sharing one such key still yield one
registration, but registration is per classification call, not idempotent
per page load: re-classifying the same kind appends another filter. The
total-notification count handler removes itself (and every handler in its
namespace) on first application, so applying the count filters adds the
first registered increment exactly once. When several requests share an
error key, processing throws before `handleWPError` and nothing is
registered (see the counterexample). -/
theorem c8_notification_registration (ctx : ProcCtx)
    (results : List (String × WireResult))
    (hok : ∀ kr ∈ results, keyOkB ctx kr.1 kr.2 = true) :
    (processResults ctx results).2 = false ∧
    countPermission (processResults ctx results).1.filters =
      (results.filter (forbiddenKey ctx)).length ∧
    ∀ c, runCounterFilters (processResults ctx results).1.filters c =
      c + firstCounterInc (processResults ctx results).1.filters := by
  rw [processResults_run ctx results hok]
  exact ⟨rfl, bigDelta_countPermission ctx results hok,
    fun c => runCounterFilters_once _ c (bigDelta_filters_wf ctx results)⟩

def c8req1 : Request := { c6req with cbId := 1 }

def c8req2 : Request := { c6req with cbId := 2 }

def c8ctx : ProcCtx :=
  { dataRequest := [c6req, c8req1, c8req2],
    keyIndexesMap := [(keyOf c6req, [0, 1, 2])],
    remainingEmpty := true }

/-- C8 counterexample: three co-batched requests share the key of a
`forbidden` error result. `dataRequest[ keyIndexesMap[ key ] ]` subscripts
the array with the three-element index array, which coerces to the string
"0,1,2" and yields `undefined`; destructuring it throws before
`handleWPError` runs, so zero PermissionError registrations happen — the
claim requires exactly one. -/
theorem c8_counterexample :
    (processResults c8ctx [(keyOf c6req, WireResult.err cexErrForbidden)]).2 = true ∧
    countPermission
      (processResults c8ctx [(keyOf c6req, WireResult.err cexErrForbidden)]).1.filters = 0 ∧
    (processResults c8ctx [(keyOf c6req, WireResult.err cexErrForbidden)]).1.filters = [] := by
  refine ⟨?_, ?_, ?_⟩ <;> decide

theorem c8_witness :
    (processResults c7ctx [(keyOf c6req, WireResult.err cexErrForbidden)]).2 = false ∧
    countPermission
      (processResults c7ctx [(keyOf c6req, WireResult.err cexErrForbidden)]).1.filters =
      ([(keyOf c6req, WireResult.err cexErrForbidden)].filter (forbiddenKey c7ctx)).length ∧
    runCounterFilters
      (processResults c7ctx [(keyOf c6req, WireResult.err cexErrForbidden)]).1.filters 3 =
      3 + firstCounterInc
        (processResults c7ctx [(keyOf c6req, WireResult.err cexErrForbidden)]).1.filters := by
  obtain ⟨h1, h2, h3⟩ := c8_notification_registration c7ctx
    [(keyOf c6req, WireResult.err cexErrForbidden)] (by decide)
  exact ⟨h1, h2, h3 3⟩

end SiteKit
